import Mathlib

/-!
Verification development for the PSyclone OpenMP analysis core.

This file gives a shallow embedding, in Lean 4, of the parts of the
repository that the specification talks about:

* `psyclone/core/signature.py` (the `Signature` key type);
* `psyclone/psyir/nodes/omp_directives.py`:
  - `OMPParallelDirective._get_private_clause` (scope privatization),
  - `OMPTaskDirective` (clause synthesis: `_handle_index_binop`,
    `_evaluate_readonly_arrayref`, `_evaluate_write_arrayref`,
    `_evaluate_assignment`, `_evaluate_loop`, `_evaluate_ifblock`,
    `_evaluate_node`, `_compute_clauses`, `begin_string`,
    `_validate_child`, `validate_global_constraints`),
  - `OMPSerialDirective._validate_satisfiable_task_dependencies`
    (the both-loops branch of the task-pair dependency validator).

Python in-place list mutation is modelled by explicit state passing, and
Python exceptions by `Except`.  Machine arithmetic in the sources is
unbounded Python integer arithmetic, so `Nat`/`Int` are used directly.
-/

namespace PsycloneSpec

/-! ## The PSyIR node subset the analyzer pattern-matches

The analyzer only ever discriminates the following expression shapes:
`Literal`, `Reference`, `BinaryOperation`, `ArrayReference`, `Range` and
"anything else" (any other PSyIR node kind appearing in an expression
position, e.g. a `CodeBlock` or a `Call`).  Literal values that the code
converts with `int(...)` are integer literals, kept as `Nat` (a PSyIR
`Literal` stores a digit string; a negative constant is a unary minus
node, which falls under `otherNode`). -/

inductive BOp where
  | add
  | sub
  | mul
  | lbound
  | ubound
  deriving DecidableEq, Repr

inductive PExpr where
  | lit (n : Nat)
  | ref (sym : String)
  | binop (op : BOp) (a b : PExpr)
  | arrayRef (sym : String) (indices : List PExpr)
  | rangeIx (lo hi : PExpr)
  | otherNode (tag : String)
  deriving Repr

namespace PExpr

mutual

def beq : PExpr → PExpr → Bool
  | .lit a, .lit b => a == b
  | .ref a, .ref b => a == b
  | .binop o1 a1 b1, .binop o2 a2 b2 => o1 == o2 && beq a1 a2 && beq b1 b2
  | .arrayRef s1 l1, .arrayRef s2 l2 => s1 == s2 && beqList l1 l2
  | .rangeIx a1 b1, .rangeIx a2 b2 => beq a1 a2 && beq b1 b2
  | .otherNode a, .otherNode b => a == b
  | _, _ => false

def beqList : List PExpr → List PExpr → Bool
  | [], [] => true
  | a :: as, b :: bs => beq a b && beqList as bs
  | _, _ => false

end

mutual

theorem beq_iff : ∀ a b : PExpr, beq a b = true ↔ a = b
  | .lit a, b => by cases b <;> simp [beq]
  | .ref a, b => by cases b <;> simp [beq]
  | .binop o1 a1 b1, b => by
      cases b <;> simp [beq]
      case binop o2 a2 b2 => rw [beq_iff a1 a2, beq_iff b1 b2]; tauto
  | .arrayRef s1 l1, b => by
      cases b <;> simp [beq]
      case arrayRef s2 l2 => rw [beqList_iff l1 l2]; tauto
  | .rangeIx a1 b1, b => by
      cases b <;> simp [beq]
      case rangeIx a2 b2 => rw [beq_iff a1 a2, beq_iff b1 b2]
  | .otherNode a, b => by cases b <;> simp [beq]

theorem beqList_iff : ∀ l1 l2 : List PExpr, beqList l1 l2 = true ↔ l1 = l2
  | [], l2 => by cases l2 <;> simp [beqList]
  | a :: as, l2 => by
      cases l2 <;> simp [beqList]
      case cons b bs => rw [beq_iff a b, beqList_iff as bs]

end

instance : DecidableEq PExpr := fun a b => decidable_of_iff _ (beq_iff a b)

end PExpr

/-- Membership test used to model the Python `x in some_list` checks the
clause synthesizer performs (Python `in` uses structural `__eq__`). -/
def memb {α : Type} [DecidableEq α] (x : α) (l : List α) : Bool :=
  l.any (fun y => decide (y = x))

theorem memb_iff {α : Type} [DecidableEq α] (x : α) (l : List α) :
    memb x l = true ↔ x ∈ l := by
  simp [memb, List.any_eq_true]

/-! ## Signature (`psyclone/core/signature.py`) -/

/-- The canonical access key: an ordered, immutable tuple of component
names (`_signature` in the Python class). -/
structure Signature where
  signature : List String
  deriving DecidableEq, Repr

/-- The admissible types of the `variable` argument of the `Signature`
constructor: `str`, `tuple` or another `Signature` (any other type raises
`InternalError`, which is outside the constructions the claim ranges
over). -/
inductive SigVariable where
  | fromString (s : String)
  | fromTuple (t : List String)
  | fromSignature (s : Signature)
  deriving DecidableEq, Repr

/-- The tuple contributed by the `variable` argument: a single-element
tuple for a `str`, the tuple itself for a `tuple`, and the wrapped tuple
for a `Signature`. -/
def sig_variable_tuple : SigVariable → List String
  | .fromString s => [s]
  | .fromTuple t => t
  | .fromSignature s => s.signature

/-- The tuple contributed by the optional `sub_sig` argument (the
null-tuple when `sub_sig` is `None`; a `Signature` object is always
truthy in Python, even when it wraps an empty tuple). -/
def sub_sig_tuple : Option Signature → List String
  | some s => s.signature
  | none => []

/-- `Signature.__init__`: concatenates the tuple of `variable` with the
tuple of `sub_sig`. -/
def signature_build (v : SigVariable) (sub_sig : Option Signature) : Signature :=
  ⟨sig_variable_tuple v ++ sub_sig_tuple sub_sig⟩

/-- `Signature.__eq__`: structural comparison of the wrapped tuples. -/
def signature_eq (a b : Signature) : Bool :=
  a.signature == b.signature

/-- `Signature.__hash__`: `hash(self._signature)` — a fixed function of
the wrapped tuple alone, independent of the instance. -/
def signature_hash (s : Signature) : UInt64 :=
  hash s.signature

/-- `Signature.__lt__`: lexicographic comparison of the tuples. -/
def signature_lt (a b : Signature) : Prop :=
  a.signature < b.signature

/-! ## Scope Privatization Analyzer
(`OMPParallelDirective._get_private_clause`, omp_directives.py 1016-1092)

`VariablesAccessInfo` (external to the analyzed sources) maps each
`Signature` to its ordered list of accesses; each access knows whether it
is an array access, its access type, and its chain of ancestors.  Only
those three observations are consumed by `_get_private_clause`, so an
access is modelled as exactly that record. -/

inductive AccessType where
  | read
  | write
  | readwrite
  | inc
  deriving DecidableEq, Repr

/-- Kinds of node met while walking from an access node up to the root:
a `Loop`, the `InvokeSchedule` at the top, or anything else. -/
inductive AncKind where
  | loopNode
  | invokeSchedule
  | otherKind
  deriving DecidableEq, Repr

structure VarAccess where
  is_array : Bool
  access_type : AccessType
  /-- The access node itself followed by its ancestors, innermost first
  (`ancestor(..., include_self=True)` starts the walk at the node). -/
  node_ancestry : List AncKind
  deriving DecidableEq, Repr

/-- `node.ancestor((Loop, InvokeSchedule), include_self=True)`: the first
element of the ancestry chain that is a `Loop` or an `InvokeSchedule`,
or `None` when the walk falls off the tree. -/
def ancestor_loop_or_schedule : List AncKind → Option AncKind
  | [] => none
  | k :: rest =>
      if k = AncKind.loopNode ∨ k = AncKind.invokeSchedule then some k
      else ancestor_loop_or_schedule rest

/-- The per-Signature decision of `_get_private_clause` (lines
1043-1078): skip Signatures whose first access is an array access, skip
Signatures with exactly one access, and otherwise mark the Signature
private exactly when the first access is a write whose nearest `Loop` or
`InvokeSchedule` ancestor (found walking upward, the node included) is a
`Loop`. -/
def signature_marked_private (accesses : List VarAccess) : Bool :=
  match accesses with
  | [] => false
  | first :: rest =>
      if first.is_array then false
      else if rest.isEmpty then false
      else if first.access_type = AccessType.write then
        match ancestor_loop_or_schedule first.node_ancestry with
        | some AncKind.loopNode => true
        | _ => false
      else false

/-- Insertion into a name list sorted ascending. -/
def insert_sorted (x : String) : List String → List String
  | [] => [x]
  | y :: ys => if x ≤ y then x :: y :: ys else y :: insert_sorted x ys

/-- `list_result.sort()` on the collected set of names. -/
def sort_names (l : List String) : List String :=
  l.foldr insert_sorted []

theorem mem_insert_sorted (a x : String) (l : List String) :
    a ∈ insert_sorted x l ↔ a = x ∨ a ∈ l := by
  induction l with
  | nil => simp [insert_sorted]
  | cons y ys ih =>
      by_cases h : x ≤ y
      · simp [insert_sorted, h]
      · simp [insert_sorted, h, ih]
        tauto

theorem mem_sort_names (a : String) (l : List String) :
    a ∈ sort_names l ↔ a ∈ l := by
  induction l with
  | nil => simp [sort_names]
  | cons x xs ih =>
      simp only [sort_names, List.foldr] at *
      rw [mem_insert_sorted, ih]
      simp

/-- `OMPParallelDirective._get_private_clause`: the set of names in the
produced private clause.  `kernel_local_vars` are the (step 1) local
variables of kernels called inside the region — unconditionally added;
`var_accesses` maps each Signature (its string form) to its ordered list
of accesses.  The Python code accumulates lower-cased names in a set and
returns them sorted; set membership is modelled by `List.dedup`. -/
def get_private_clause (kernel_local_vars : List String)
    (var_accesses : List (String × List VarAccess)) : List String :=
  let result :=
    kernel_local_vars.map String.toLower ++
      ((var_accesses.filter (fun p => signature_marked_private p.2)).map
        (fun p => p.1.toLower))
  sort_names result.dedup

/-- Claim C9: Signature values built from the same sequence of component
name strings are equal, whatever construction path (direct tuple, string,
or composition via `sub_sig`) was used, and equal Signatures always have
equal hash values (hashing is consistent with equality). -/
theorem signature_same_components_eq_and_hash (v1 v2 : SigVariable)
    (s1 s2 : Option Signature)
    (h : sig_variable_tuple v1 ++ sub_sig_tuple s1 =
         sig_variable_tuple v2 ++ sub_sig_tuple s2) :
    signature_build v1 s1 = signature_build v2 s2 ∧
    signature_eq (signature_build v1 s1) (signature_build v2 s2) = true ∧
    signature_hash (signature_build v1 s1) =
      signature_hash (signature_build v2 s2) ∧
    (∀ a b : Signature, signature_eq a b = true →
       signature_hash a = signature_hash b) := by
  have hb : signature_build v1 s1 = signature_build v2 s2 := by
    simp only [signature_build, h]
  refine ⟨hb, by simp [signature_eq, hb], by rw [hb], ?_⟩
  intro a b hab
  have : a.signature = b.signature := by
    simpa [signature_eq] using hab
  simp [signature_hash, this]

/-- Witness for C9: `Signature("a", sub_sig=Signature(("b","c")))` and
`Signature(("a","b","c"))` are equal and hash alike. -/
theorem signature_same_components_eq_and_hash_witness :
    signature_build (SigVariable.fromString "a") (some ⟨["b", "c"]⟩) =
      signature_build (SigVariable.fromTuple ["a", "b", "c"]) none ∧
    signature_eq
      (signature_build (SigVariable.fromString "a") (some ⟨["b", "c"]⟩))
      (signature_build (SigVariable.fromTuple ["a", "b", "c"]) none) = true ∧
    signature_hash
      (signature_build (SigVariable.fromString "a") (some ⟨["b", "c"]⟩)) =
      signature_hash
        (signature_build (SigVariable.fromTuple ["a", "b", "c"]) none) := by
  have h := signature_same_components_eq_and_hash
    (SigVariable.fromString "a") (SigVariable.fromTuple ["a", "b", "c"])
    (some ⟨["b", "c"]⟩) none (by decide)
  exact ⟨h.1, h.2.1, h.2.2.1⟩

/-- Claim C1: the Scope Privatization Analyzer marks a scalar Signature
private exactly when it has two or more accesses, its first access is a
write, and the nearest `Loop`-or-region-boundary ancestor of that write
is a loop; Signatures whose first access is an array access, and
Signatures with exactly one access, never enter the private-clause list
through the access analysis (the only other contributions are the
unconditionally-private kernel-local variables of step 1). -/
theorem scope_privatization_private_clause (name : String)
    (kernel_local_vars : List String)
    (var_accesses : List (String × List VarAccess)) :
    (name ∈ get_private_clause kernel_local_vars var_accesses ↔
       (∃ k ∈ kernel_local_vars, name = k.toLower) ∨
       (∃ p ∈ var_accesses,
          signature_marked_private p.2 = true ∧ name = p.1.toLower)) ∧
    (∀ accesses : List VarAccess,
       signature_marked_private accesses = true ↔
         ∃ first rest, accesses = first :: rest ∧ rest ≠ [] ∧
           first.is_array = false ∧
           first.access_type = AccessType.write ∧
           ancestor_loop_or_schedule first.node_ancestry =
             some AncKind.loopNode) := by
  constructor
  · simp only [get_private_clause, mem_sort_names, List.mem_dedup,
      List.mem_append, List.mem_map, List.mem_filter]
    constructor
    · rintro (⟨k, hk, rfl⟩ | ⟨p, ⟨hp, hm⟩, rfl⟩)
      · exact Or.inl ⟨k, hk, rfl⟩
      · exact Or.inr ⟨p, hp, hm, rfl⟩
    · rintro (⟨k, hk, rfl⟩ | ⟨p, hp, hm, rfl⟩)
      · exact Or.inl ⟨k, hk, rfl⟩
      · exact Or.inr ⟨p, ⟨hp, hm⟩, rfl⟩
  · intro accesses
    match accesses with
    | [] => simp [signature_marked_private]
    | first :: rest =>
        simp only [signature_marked_private]
        by_cases h1 : first.is_array
        · simp [h1]
        · by_cases h2 : rest.isEmpty
          · have : rest = [] := by simpa [List.isEmpty_iff] using h2
            simp [h1, h2, this]
          · have hne : rest ≠ [] := by simpa [List.isEmpty_iff] using h2
            by_cases h3 : first.access_type = AccessType.write
            · simp only [if_neg h1, if_neg h2, if_pos h3]
              cases hanc : ancestor_loop_or_schedule first.node_ancestry with
              | none => simp [hanc, h1, h3, hne]
              | some k =>
                  cases k with
                  | loopNode =>
                      simp only [eq_self_iff_true, true_iff]
                      exact ⟨first, rest, rfl, hne,
                        by simpa using h1, h3, hanc⟩
                  | invokeSchedule => simp [hanc, h1, h3, hne]
                  | otherKind => simp [hanc, h1, h3, hne]
            · simp only [if_neg h1, if_neg h2, if_neg h3]
              constructor
              · intro hfalse; exact absurd hfalse (by simp)
              · rintro ⟨f, r, hfr, _, _, hw, _⟩
                cases hfr
                exact absurd hw h3

/-! ## Task Clause Synthesizer: per-dimension index arithmetic
(`OMPTaskDirective._handle_index_binop`, omp_directives.py 1265-1556)

For an array subscript `Reference ± Literal` governed by a loop with
literal step, the code computes `divisor = math.ceil(literal / step)` and
`modulo = literal % step` and synthesizes one or two candidate index
expressions.  The block appears twice, once for the proxy-loop case
(lines 1377-1435) and once for a direct parent-loop variable (lines
1489-1543); both instances are textually identical up to which reference
node is substituted, and are embedded once below. -/

/-- `math.ceil(literal_val / step_val)` on non-negative integers (for
`step_val = 0` Python would raise `ZeroDivisionError`; a loop step is a
positive literal). -/
def ceil_div (o s : Nat) : Nat :=
  o / s + (if o % s = 0 then 0 else 1)

/-- Lines 1391-1406: the `step` and optional `step2` expressions.  When
`divisor > 1` the step is the product `divisor * step_val` (built as a
`MUL` BinaryOperation) and `step2` is `(divisor-1) * step_val` when
`divisor > 2` or the plain `step_val` literal when `divisor = 2`; when
`divisor <= 1` the step is the plain `step_val` literal and `step2`
stays `None`. -/
def synth_steps (divisor step_val : Nat) : PExpr × Option PExpr :=
  if 1 < divisor then
    (PExpr.binop BOp.mul (PExpr.lit divisor) (PExpr.lit step_val),
     if 2 < divisor then
       some (PExpr.binop BOp.mul (PExpr.lit (divisor - 1)) (PExpr.lit step_val))
     else some (PExpr.lit step_val))
  else (PExpr.lit step_val, none)

/-- Lines 1377-1435: the candidate index expressions appended to
`index_list` for one `Reference ± Literal` subscript.  `ref_first`
records whether the reference was `children[0]` (so `Ref OP Literal`) or
`children[1]` (`Literal OP Ref`).  When `modulo ~= 0` a second candidate
is emitted: built from `step2` when that exists, and the bare reference
when `step2` is `None`. -/
def synth_binops (op : BOp) (ref_first : Bool) (real_ref : PExpr)
    (step_val literal_val : Nat) : List PExpr :=
  let divisor := ceil_div literal_val step_val
  let modulo := literal_val % step_val
  let sp := synth_steps divisor step_val
  let binop1 :=
    if ref_first then PExpr.binop op real_ref sp.1
    else PExpr.binop op sp.1 real_ref
  if modulo ≠ 0 then
    match sp.2 with
    | some st2 =>
        [binop1,
         if ref_first then PExpr.binop op real_ref st2
         else PExpr.binop op st2 real_ref]
    | none => [binop1, real_ref]
  else [binop1]

/-- The primary dependency candidate: the first synthesized expression. -/
def primary_candidate (op : BOp) (ref_first : Bool) (real_ref : PExpr)
    (step_val literal_val : Nat) : PExpr :=
  (synth_binops op ref_first real_ref step_val literal_val).headD real_ref

/-- The secondary dependency candidate, when one is emitted. -/
def secondary_candidate (op : BOp) (ref_first : Bool) (real_ref : PExpr)
    (step_val literal_val : Nat) : Option PExpr :=
  (synth_binops op ref_first real_ref step_val literal_val)[1]?

/-- Integer value of a synthesized index expression under an environment
for reference symbols (only the arithmetic node kinds the synthesizer
emits are interpreted). -/
def evalExpr (env : String → Int) : PExpr → Int
  | .lit n => (n : Int)
  | .ref s => env s
  | .binop BOp.add a b => evalExpr env a + evalExpr env b
  | .binop BOp.sub a b => evalExpr env a - evalExpr env b
  | .binop BOp.mul a b => evalExpr env a * evalExpr env b
  | .binop _ _ _ => 0
  | .arrayRef _ _ => 0
  | .rangeIx _ _ => 0
  | .otherNode _ => 0

/-- The value `Reference ± v` stated by the claims, honouring the
operand order of the source binary operation. -/
def apply_index_op (op : BOp) (ref_first : Bool) (r v : Int) : Int :=
  match op, ref_first with
  | BOp.add, true => r + v
  | BOp.add, false => v + r
  | BOp.sub, true => r - v
  | BOp.sub, false => v - r
  | _, _ => 0

theorem ceil_div_pos (o s : Nat) (hs : 1 ≤ s) (ho : 1 ≤ o) :
    1 ≤ ceil_div o s := by
  unfold ceil_div
  by_cases h : o % s = 0
  · have hdvd : s ∣ o := Nat.dvd_of_mod_eq_zero h
    have hso : s ≤ o := Nat.le_of_dvd (by omega) hdvd
    have : 1 ≤ o / s := (Nat.one_le_div_iff (by omega)).mpr hso
    simp [h]
    omega
  · simp [h]

theorem ceil_div_pos_of_mod (o s : Nat) (h : o % s ≠ 0) :
    1 ≤ ceil_div o s := by
  unfold ceil_div
  simp [h]

theorem synth_steps_fst_value (env : String → Int) (d s : Nat) (hd : 1 ≤ d) :
    evalExpr env (synth_steps d s).1 = ((d * s : Nat) : Int) := by
  by_cases h : 1 < d
  · simp [synth_steps, h, evalExpr]
  · have hd1 : d = 1 := by omega
    subst hd1
    simp [synth_steps, evalExpr]

theorem synth_binops_head (op : BOp) (ref_first : Bool) (real_ref : PExpr)
    (s o : Nat) :
    primary_candidate op ref_first real_ref s o =
      (if ref_first then
        PExpr.binop op real_ref (synth_steps (ceil_div o s) s).1
       else PExpr.binop op (synth_steps (ceil_div o s) s).1 real_ref) := by
  unfold primary_candidate synth_binops
  by_cases hm : o % s = 0
  · simp [hm]
  · cases hsp : (synth_steps (ceil_div o s) s).2 <;> simp [hm, hsp]

/-- Claim C2, counterexample: for literal offset `0` the divisor is
`ceil(0/s) = 0`, yet the synthesized primary candidate is `ref + s`
(value `ref + 2` for step 2), not `ref + divisor*s = ref + 0`. -/
theorem primary_candidate_counterexample :
    ceil_div 0 2 = 0 ∧
    primary_candidate BOp.add true (PExpr.ref "i") 2 0 =
      PExpr.binop BOp.add (PExpr.ref "i") (PExpr.lit 2) ∧
    evalExpr (fun _ => 5) (primary_candidate BOp.add true (PExpr.ref "i") 2 0) ≠
      apply_index_op BOp.add true 5 ((ceil_div 0 2 * 2 : Nat) : Int) := by
  refine ⟨by decide, by decide, ?_⟩
  decide

/-- Claim C2 (amended): for literal integer step `s ≥ 1` and literal
offset `o ≥ 1`, the primary dependency candidate synthesized for a
subscript `Reference ± Literal` has the value `ref ± divisor*s` with
`divisor = ceil(o/s)`; in particular for step 2 and offset 3 the primary
candidate is `ref + 4`.  (For `o = 0` the code instead emits `ref ± s`.) -/
theorem primary_candidate_value (op : BOp) (ref_first : Bool)
    (real_ref : PExpr) (env : String → Int) (s o : Nat)
    (hop : op = BOp.add ∨ op = BOp.sub) (hs : 1 ≤ s) (ho : 1 ≤ o) :
    evalExpr env (primary_candidate op ref_first real_ref s o) =
      apply_index_op op ref_first (evalExpr env real_ref)
        ((ceil_div o s * s : Nat) : Int) := by
  have hd : 1 ≤ ceil_div o s := ceil_div_pos o s hs ho
  rw [synth_binops_head]
  rcases hop with rfl | rfl <;> cases ref_first <;>
    simp [evalExpr, apply_index_op, synth_steps_fst_value env _ s hd]

/-- Witness for C2 (amended): step 2, offset 3 gives divisor 2 and the
primary candidate `ref + 4`. -/
theorem primary_candidate_value_witness :
    evalExpr (fun _ => 0) (primary_candidate BOp.add true (PExpr.ref "i") 2 3) =
      apply_index_op BOp.add true 0 ((ceil_div 3 2 * 2 : Nat) : Int) ∧
    apply_index_op BOp.add true 0 ((ceil_div 3 2 * 2 : Nat) : Int) = 4 :=
  ⟨primary_candidate_value BOp.add true (PExpr.ref "i") (fun _ => 0) 2 3
      (Or.inl rfl) (by decide) (by decide),
   by decide⟩

/-- Claim C3, counterexample: for step 2 and offset 1 the divisor is 1
and the remainder is nonzero, yet the emitted secondary candidate is the
bare reference (value `ref`), not `ref ± s` (value `ref + 2`). -/
theorem secondary_candidate_counterexample :
    ceil_div 1 2 = 1 ∧ (1 % 2 ≠ 0) ∧
    secondary_candidate BOp.add true (PExpr.ref "i") 2 1 =
      some (PExpr.ref "i") ∧
    evalExpr (fun _ => 5) (PExpr.ref "i") ≠
      apply_index_op BOp.add true 5 ((2 : Nat) : Int) := by
  refine ⟨by decide, by decide, by decide, ?_⟩
  decide

/-- Claim C3 (amended): when `modulo = o mod s` is nonzero exactly one
secondary candidate is emitted; its value is
`Reference ± ((divisor−1)·s)` when `divisor ≥ 2` (realized as the plain
step literal when `divisor = 2`), while for `divisor = 1` it is the bare
Reference with no offset applied.  When `modulo = 0` no secondary
candidate is emitted. -/
theorem secondary_candidate_value (op : BOp) (ref_first : Bool)
    (real_ref : PExpr) (env : String → Int) (s o : Nat)
    (hop : op = BOp.add ∨ op = BOp.sub) (hs : 1 ≤ s) :
    (o % s = 0 →
       secondary_candidate op ref_first real_ref s o = none ∧
       (synth_binops op ref_first real_ref s o).length = 1) ∧
    (o % s ≠ 0 →
       (synth_binops op ref_first real_ref s o).length = 2) ∧
    (o % s ≠ 0 → ceil_div o s = 1 →
       secondary_candidate op ref_first real_ref s o = some real_ref) ∧
    (o % s ≠ 0 → 2 ≤ ceil_div o s →
       ∃ e, secondary_candidate op ref_first real_ref s o = some e ∧
         evalExpr env e =
           apply_index_op op ref_first (evalExpr env real_ref)
             (((ceil_div o s - 1) * s : Nat) : Int)) := by
  have hsecond : o % s ≠ 0 →
      secondary_candidate op ref_first real_ref s o =
        some (match (synth_steps (ceil_div o s) s).2 with
          | some st2 =>
              if ref_first then PExpr.binop op real_ref st2
              else PExpr.binop op st2 real_ref
          | none => real_ref) := by
    intro hm
    unfold secondary_candidate synth_binops
    cases hsp : (synth_steps (ceil_div o s) s).2 <;> simp [hm, hsp]
  refine ⟨?_, ?_, ?_, ?_⟩
  · intro hm
    constructor <;>
      simp [secondary_candidate, synth_binops, hm]
  · intro hm
    unfold synth_binops
    cases hsp : (synth_steps (ceil_div o s) s).2 <;> simp [hm, hsp]
  · intro hm hd1
    rw [hsecond hm, hd1]
    have hst : synth_steps 1 s = (PExpr.lit s, none) := by
      simp [synth_steps]
    rw [hst]
  · intro hm hd2
    rw [hsecond hm]
    by_cases hd3 : 2 < ceil_div o s
    · have h1 : 1 < ceil_div o s := by omega
      have hstep : (synth_steps (ceil_div o s) s).2 =
          some (PExpr.binop BOp.mul (PExpr.lit (ceil_div o s - 1))
            (PExpr.lit s)) := by
        simp [synth_steps, hd3, h1]
      rw [hstep]
      refine ⟨_, rfl, ?_⟩
      rcases hop with rfl | rfl <;> cases ref_first <;>
        simp [evalExpr, apply_index_op]
    · have hdeq : ceil_div o s = 2 := by omega
      have hstep : (synth_steps (ceil_div o s) s).2 = some (PExpr.lit s) := by
        rw [hdeq]; simp [synth_steps]
      rw [hstep]
      refine ⟨_, rfl, ?_⟩
      have hv : ((ceil_div o s - 1) * s : Nat) = s := by
        rw [hdeq]; omega
      rw [hv]
      rcases hop with rfl | rfl <;> cases ref_first <;>
        simp [evalExpr, apply_index_op]

/-- Witness for C3 (amended): step 2, offset 3 has nonzero remainder and
divisor 2; the secondary candidate exists and has value `ref + 2`. -/
theorem secondary_candidate_value_witness :
    ∃ e, secondary_candidate BOp.add true (PExpr.ref "i") 2 3 = some e ∧
      evalExpr (fun _ => 0) e =
        apply_index_op BOp.add true 0 (((ceil_div 3 2 - 1) * 2 : Nat) : Int) :=
  (secondary_candidate_value BOp.add true (PExpr.ref "i") (fun _ => 0) 2 3
      (Or.inl rfl) (by decide)).2.2.2 (by decide) (by decide)

/-! ## Task Clause Synthesizer: the region walk
(`OMPTaskDirective`, omp_directives.py 1122-2280)

Statements are the node kinds `_evaluate_node` dispatches on:
`Assignment`, `Loop` (children 0-2 the start/stop/step expressions,
child 3 the body schedule), `IfBlock`, and anything else (ignored by the
walk).  Mutually inductive statement lists keep the recursion
structural. -/

mutual

inductive PStmt where
  | assign (lhs rhs : PExpr)
  | loop (var : String) (start_expr stop_expr step_expr : PExpr)
      (body : PStmtList)
  | ifblock (cond : PExpr) (if_body else_body : PStmtList)
  | otherStmt (tag : String)
  deriving Repr

inductive PStmtList where
  | nil
  | cons (s : PStmt) (rest : PStmtList)
  deriving Repr

end

inductive GenError where
  | unsupportedBinopOperator
  | binopChildrenNotRefAndLit
  | sharedVariableIndex
  | indexTypeNotAllowed
  | stepNotLiteral
  | sharedLoopVariable
  | arrayRefInLoopStart
  | arrayRefInLoopStop
  | arrayRefInLoopStep
  | arrayCreateRankMismatch
  | taskBodyNotSingleChild
  | taskBodyChildNotLoop
  | notInSerialRegion
  deriving DecidableEq, Repr

/-! `node.walk(Reference)` restricted to an expression subtree: all
Reference-like nodes (plain and array references) in depth-first
pre-order, each array reference followed by the walk of its indices. -/
mutual

def walkRefNodes : PExpr → List PExpr
  | .lit _ => []
  | .ref s => [PExpr.ref s]
  | .binop _ a b => walkRefNodes a ++ walkRefNodes b
  | .arrayRef s idxs => PExpr.arrayRef s idxs :: walkRefNodesList idxs
  | .rangeIx lo hi => walkRefNodes lo ++ walkRefNodes hi
  | .otherNode _ => []

def walkRefNodesList : List PExpr → List PExpr
  | [] => []
  | e :: rest => walkRefNodes e ++ walkRefNodesList rest

end

/-- `isinstance(node, Reference)` (array references are `Reference`
subclasses in the PSyIR). -/
def isRefLike : PExpr → Bool
  | .ref _ => true
  | .arrayRef _ _ => true
  | _ => false

/-- `isinstance(node, Literal)`. -/
def isLitNode : PExpr → Bool
  | .lit _ => true
  | _ => false

/-- `node.symbol` for the Reference-like nodes. -/
def exprSymbol : PExpr → String
  | .ref s => s
  | .arrayRef s _ => s
  | _ => ""

/-- `int(node.value)` for a Literal node. -/
def litValue : PExpr → Nat
  | .lit n => n
  | _ => 0

/-- First-match association lookup (Python `list.index` / first `for`
match over parallel lists, and `dict` key lookup). -/
def assoc_lookup {β : Type} : List (String × β) → String → Option β
  | [], _ => none
  | (k2, v) :: rest, k => if k2 = k then some v else assoc_lookup rest k

/-- One entry of `_proxy_loop_vars`: the parent loop variable the proxy
stands for, and the step expression of that parent loop (the only datum
of the stored parent loop node that clause synthesis reads). -/
structure ProxyInfo where
  parent_var : String
  parent_step : PExpr
  deriving DecidableEq, Repr

/-- `_proxy_loop_vars`, a Python dict keyed by the proxy loop variable. -/
abbrev ProxyMap := List (String × ProxyInfo)

def lookup_proxy (pm : ProxyMap) (k : String) : Option ProxyInfo :=
  assoc_lookup pm k

/-- `dict.pop(k)`. -/
def pop_key (pm : ProxyMap) (k : String) : ProxyMap :=
  pm.filter (fun p => decide (p.1 ≠ k))

/-- `dict[k] = v` (overwrites any previous binding of `k`). -/
def insert_key (pm : ProxyMap) (k : String) (v : ProxyInfo) : ProxyMap :=
  (k, v) :: pop_key pm k

/-- The fixed per-task context computed before the walk:
`_parallel_private` (names of the References private in the enclosing
parallel region, from `_get_private_clause` of the parent),
`_parent_loop_vars`/`_parent_loops` (variable and step expression of
each ancestor loop up to the parallel region), and the declared rank of
each array symbol (from the external symbol table). -/
structure TaskCtx where
  parallel_private : List String
  parent_loops : List (String × PExpr)
  array_rank : List (String × Nat)
  deriving Repr

/-- The five clause lists threaded through the walk (`private_list`,
`firstprivate_list`, `shared_list`, `in_list`, `out_list`). -/
structure ClauseState where
  private_list : List PExpr
  firstprivate_list : List PExpr
  shared_list : List PExpr
  in_list : List PExpr
  out_list : List PExpr
  deriving DecidableEq, Repr

def initState : ClauseState := ⟨[], [], [], [], []⟩

/-- `ref in self._parallel_private`: the parallel-private clause holds
plain References, so structural equality holds exactly for a plain
reference whose symbol name is in the clause. -/
def in_parallel_private (pp : List String) : PExpr → Bool
  | .ref s => memb s pp
  | _ => false

/-! Loop variables of all loops in a statement subtree
(`self.walk(Loop)` over the task body, in walk order). -/
mutual

def stmtLoopVars : PStmt → List String
  | .assign _ _ => []
  | .loop v _ _ _ body => v :: stmtListLoopVars body
  | .ifblock _ t e => stmtListLoopVars t ++ stmtListLoopVars e
  | .otherStmt _ => []

def stmtListLoopVars : PStmtList → List String
  | .nil => []
  | .cons s rest => stmtLoopVars s ++ stmtListLoopVars rest

end

/-- Lines 1363-1367 / 1617-1621 / 1795-1799: variables of child loops
that are not proxies for a parent loop variable. -/
def child_loop_vars (alv : List String) (pm : ProxyMap) : List String :=
  alv.filter (fun v => (lookup_proxy pm v).isNone)

/-- The full-range (`:`) candidate for dimension `dim` (0-based) of
array `arr_sym`: `Range(LBOUND(arr, dim+1), UBOUND(arr, dim+1))`. -/
def full_range (arr_sym : String) (dim : Nat) : PExpr :=
  PExpr.rangeIx
    (PExpr.binop BOp.lbound (PExpr.ref arr_sym) (PExpr.lit (dim + 1)))
    (PExpr.binop BOp.ubound (PExpr.ref arr_sym) (PExpr.lit (dim + 1)))

/-- `OMPTaskDirective._handle_index_binop` (lines 1265-1556).  Evaluates
one BinaryOperation subscript of the array `arr_sym`; `dim_so_far` is
`len(index_list)` at the call.  Returns the candidate-list entry
appended to `index_list` together with the updated clause state.  The
two full-range sub-branches of the private-and-written case (child loop
variable at 1443-1456, private constant at 1457-1473) build the
identical `Range`, and are merged here. -/
def handle_index_binop (ctx : TaskCtx) (pm : ProxyMap) (alv : List String)
    (arr_sym : String) (dim_so_far : Nat) (node : PExpr) (st : ClauseState) :
    Except GenError (List PExpr × ClauseState) :=
  match node with
  | .binop op c0 c1 =>
      if ¬ (op = BOp.add ∨ op = BOp.sub) then
        .error GenError.unsupportedBinopOperator
      else if ¬ ((isRefLike c0 ∧ isLitNode c1) ∨
                 (isLitNode c0 ∧ isRefLike c1)) then
        .error GenError.binopChildrenNotRefAndLit
      else
        let ref_first := isRefLike c0
        let ref_node := if ref_first then c0 else c1
        let lit_node := if ref_first then c1 else c0
        let index_symbol := exprSymbol ref_node
        let index_private := in_parallel_private ctx.parallel_private ref_node
        match lookup_proxy pm index_symbol with
        | some info =>
            match info.parent_step with
            | .lit step_val =>
                .ok (synth_binops op ref_first (PExpr.ref info.parent_var)
                      step_val (litValue lit_node), st)
            | _ => .error GenError.stepNotLiteral
        | none =>
            if index_private then
              if memb ref_node st.private_list then
                .ok ([full_range arr_sym dim_so_far], st)
              else
                let st1 :=
                  if ¬ memb ref_node st.firstprivate_list then
                    { st with firstprivate_list :=
                        st.firstprivate_list ++ [ref_node] }
                  else st
                match assoc_lookup ctx.parent_loops index_symbol with
                | some step_expr =>
                    match step_expr with
                    | .lit step_val =>
                        .ok (synth_binops op ref_first ref_node step_val
                              (litValue lit_node), st1)
                    | _ => .error GenError.stepNotLiteral
                | none => .ok ([node], st1)
            else .error GenError.sharedVariableIndex
  | _ => .error GenError.binopChildrenNotRefAndLit

/-- Modelled from the spec: `ArrayReference.create(symbol, indices)`
belongs to the PSyIR node layer, which is not among the analyzed
sources.  Spec §3 states the invariant that an ArrayRef index-list
length equals the declared rank of the referenced array; `create`
enforces it, rejecting an index list of the wrong length. -/
def array_reference_create (ctx : TaskCtx) (sym : String)
    (indices : List PExpr) : Except GenError PExpr :=
  match assoc_lookup ctx.array_rank sym with
  | some r =>
      if indices.length = r then .ok (PExpr.arrayRef sym indices)
      else .error GenError.arrayCreateRankMismatch
  | none => .error GenError.arrayCreateRankMismatch

/-- `itertools.product` over the per-dimension candidate lists. -/
def list_product : List (List PExpr) → List (List PExpr)
  | [] => [[]]
  | l :: rest =>
      (l.map (fun x => (list_product rest).map (fun c => x :: c))).flatten

/-- The dependency-entry loop of `_evaluate_readonly_arrayref` (1690-
1700) and `_evaluate_write_arrayref` (1856-1866): build one
ArrayReference per product element, de-duplicating into the target
dependency list. -/
def add_dep_entries (ctx : TaskCtx) (arr_sym : String) :
    List (List PExpr) → List PExpr → Except GenError (List PExpr)
  | [], dep_list => .ok dep_list
  | c :: rest, dep_list =>
      match array_reference_create ctx arr_sym c with
      | .ok dclause =>
          add_dep_entries ctx arr_sym rest
            (if ¬ memb dclause dep_list then dep_list ++ [dclause]
             else dep_list)
      | .error e => .error e

/-- The Reference-subscript branch shared verbatim by the read path
(lines 1613-1659, guarded by `type(index) is Reference`) and the write
path (lines 1792-1837, guarded by `isinstance(index, Reference)`): a
private index becomes firstprivate if not yet classified, then a child
loop variable index yields a full range, a proxy index the parent loop
variable, and any other private reference itself; a shared index is a
hard error. -/
def eval_index_reference (ctx : TaskCtx) (pm : ProxyMap) (alv : List String)
    (arr_sym : String) (dim : Nat) (ilist : List (List PExpr)) (nd : PExpr)
    (st : ClauseState) :
    Except GenError (List (List PExpr) × ClauseState) :=
  let sym := exprSymbol nd
  let index_private := in_parallel_private ctx.parallel_private nd
  if index_private then
    let st1 :=
      if ¬ memb nd st.private_list ∧ ¬ memb nd st.firstprivate_list then
        { st with firstprivate_list := st.firstprivate_list ++ [nd] }
      else st
    if memb sym (child_loop_vars alv pm) then
      .ok (ilist ++ [[full_range arr_sym dim]], st1)
    else
      match lookup_proxy pm sym with
      | some info => .ok (ilist ++ [[PExpr.ref info.parent_var]], st1)
      | none => .ok (ilist ++ [[nd]], st1)
  else .error GenError.sharedVariableIndex

/-- One subscript of a read array access (`_evaluate_readonly_arrayref`
lines 1611-1676): the dispatch is `type(index) is Reference`, then
`BinaryOperation`, then `Literal`, and any other node kind raises. -/
def eval_ro_index (ctx : TaskCtx) (pm : ProxyMap) (alv : List String)
    (arr_sym : String) (dim : Nat) (ilist : List (List PExpr))
    (index : PExpr) (st : ClauseState) :
    Except GenError (List (List PExpr) × ClauseState) :=
  match index with
  | .ref sym => eval_index_reference ctx pm alv arr_sym dim ilist
      (PExpr.ref sym) st
  | .binop op a b =>
      match handle_index_binop ctx pm alv arr_sym ilist.length
          (PExpr.binop op a b) st with
      | .ok (entry, st1) => .ok (ilist ++ [entry], st1)
      | .error e => .error e
  | .lit n => .ok (ilist ++ [[PExpr.lit n]], st)
  | _ => .error GenError.indexTypeNotAllowed

/-- One subscript of a written array access (`_evaluate_write_arrayref`
lines 1788-1841): the dispatch is `Literal`, then
`isinstance(index, Reference)` (which also admits array references),
then `BinaryOperation` — and, unlike the read path, there is no `else`
clause: a subscript of any other node kind is silently skipped, adding
no entry to the index list. -/
def eval_write_index (ctx : TaskCtx) (pm : ProxyMap) (alv : List String)
    (arr_sym : String) (dim : Nat) (ilist : List (List PExpr))
    (index : PExpr) (st : ClauseState) :
    Except GenError (List (List PExpr) × ClauseState) :=
  match index with
  | .lit n => .ok (ilist ++ [[PExpr.lit n]], st)
  | .ref sym => eval_index_reference ctx pm alv arr_sym dim ilist
      (PExpr.ref sym) st
  | .arrayRef s idxs => eval_index_reference ctx pm alv arr_sym dim ilist
      (PExpr.arrayRef s idxs) st
  | .binop op a b =>
      match handle_index_binop ctx pm alv arr_sym ilist.length
          (PExpr.binop op a b) st with
      | .ok (entry, st1) => .ok (ilist ++ [entry], st1)
      | .error e => .error e
  | _ => .ok (ilist, st)

/-- The `enumerate(ref.indices)` loop of an array-access evaluation,
parameterized by the per-subscript handler. -/
def eval_index_list
    (h : Nat → List (List PExpr) → PExpr → ClauseState →
         Except GenError (List (List PExpr) × ClauseState)) :
    List PExpr → Nat → List (List PExpr) → ClauseState →
    Except GenError (List (List PExpr) × ClauseState)
  | [], _, ilist, st => .ok (ilist, st)
  | idx :: rest, dim, ilist, st =>
      match h dim ilist idx st with
      | .ok (ilist1, st1) => eval_index_list h rest (dim + 1) ilist1 st1
      | .error e => .error e

/-- `_evaluate_readonly_arrayref` (lines 1558-1704). -/
def eval_ro_arrayref (ctx : TaskCtx) (pm : ProxyMap) (alv : List String)
    (arr_sym : String) (indices : List PExpr) (st : ClauseState) :
    Except GenError ClauseState :=
  match eval_index_list (eval_ro_index ctx pm alv arr_sym) indices 0 [] st with
  | .error e => .error e
  | .ok (ilist, st1) =>
      match add_dep_entries ctx arr_sym (list_product ilist) st1.in_list with
      | .error e => .error e
      | .ok in1 =>
          let st2 := { st1 with in_list := in1 }
          .ok (if ¬ memb (PExpr.ref arr_sym) st2.shared_list then
                { st2 with shared_list := st2.shared_list ++ [PExpr.ref arr_sym] }
               else st2)

/-- `_evaluate_write_arrayref` (lines 1744-1870). -/
def eval_write_arrayref (ctx : TaskCtx) (pm : ProxyMap) (alv : List String)
    (arr_sym : String) (indices : List PExpr) (st : ClauseState) :
    Except GenError ClauseState :=
  match eval_index_list (eval_write_index ctx pm alv arr_sym) indices 0 [] st with
  | .error e => .error e
  | .ok (ilist, st1) =>
      match add_dep_entries ctx arr_sym (list_product ilist) st1.out_list with
      | .error e => .error e
      | .ok out1 =>
          let st2 := { st1 with out_list := out1 }
          .ok (if ¬ memb (PExpr.ref arr_sym) st2.shared_list then
                { st2 with shared_list := st2.shared_list ++ [PExpr.ref arr_sym] }
               else st2)

/-- `_evaluate_readonly_baseref` (lines 1222-1263). -/
def eval_ro_baseref (ctx : TaskCtx) (r : PExpr) (st : ClauseState) :
    ClauseState :=
  if in_parallel_private ctx.parallel_private r then
    if ¬ memb r st.private_list ∧ ¬ memb r st.firstprivate_list then
      { st with firstprivate_list := st.firstprivate_list ++ [r] }
    else st
  else
    if ¬ memb r st.in_list then { st with in_list := st.in_list ++ [r] }
    else st

/-- `_evaluate_write_baseref` (lines 1872-1902). -/
def eval_write_baseref (ctx : TaskCtx) (r : PExpr) (st : ClauseState) :
    ClauseState :=
  let is_private := in_parallel_private ctx.parallel_private r
  let st1 :=
    if is_private ∧ ¬ memb r st.private_list then
      { st with private_list := st.private_list ++ [r] }
    else st
  if ¬ is_private then
    let st2 :=
      if ¬ memb r st1.shared_list then
        { st1 with shared_list := st1.shared_list ++ [r] }
      else st1
    if ¬ memb r st2.out_list then { st2 with out_list := st2.out_list ++ [r] }
    else st2
  else st1

/-- `_evaluate_readonly_reference` (lines 1706-1742; structure
references, which reduce to their base symbol, are not modelled). -/
def eval_ro_reference (ctx : TaskCtx) (pm : ProxyMap) (alv : List String)
    (r : PExpr) (st : ClauseState) : Except GenError ClauseState :=
  match r with
  | .arrayRef sym idxs => eval_ro_arrayref ctx pm alv sym idxs st
  | .ref sym => .ok (eval_ro_baseref ctx (PExpr.ref sym) st)
  | _ => .ok st

/-- The `for ref in rhs.walk(Reference)` loops of `_evaluate_assignment`
and `_evaluate_ifblock`. -/
def eval_ro_ref_list (ctx : TaskCtx) (pm : ProxyMap) (alv : List String) :
    List PExpr → ClauseState → Except GenError ClauseState
  | [], st => .ok st
  | r :: rest, st =>
      match eval_ro_reference ctx pm alv r st with
      | .ok st1 => eval_ro_ref_list ctx pm alv rest st1
      | .error e => .error e

/-- `_evaluate_write_reference` (lines 1904-1937). -/
def eval_write_reference (ctx : TaskCtx) (pm : ProxyMap) (alv : List String)
    (r : PExpr) (st : ClauseState) : Except GenError ClauseState :=
  match r with
  | .arrayRef sym idxs => eval_write_arrayref ctx pm alv sym idxs st
  | .ref sym => .ok (eval_write_baseref ctx (PExpr.ref sym) st)
  | _ => .ok st

/-- Lines 2019-2037 of `_evaluate_loop`: the proxy-registration
decision.  When `start_expr.walk(Reference)` yields exactly one node
whose symbol equals one of the parent loop variables, the loop variable
becomes a proxy bound to that parent variable and the step expression of
the matching parent loop. -/
def loop_proxy_registration (ctx : TaskCtx) (start_expr : PExpr) :
    Option ProxyInfo :=
  match walkRefNodes start_expr with
  | [r] =>
      match assoc_lookup ctx.parent_loops (exprSymbol r) with
      | some step_expr => some ⟨exprSymbol r, step_expr⟩
      | none => none
  | _ => none

/-- Lines 2058-2087 of `_evaluate_loop`: references inside a loop bound
are rejected if array references, and otherwise added to firstprivate
unless already classified. -/
def add_bound_refs (err : GenError) :
    List PExpr → ClauseState → Except GenError ClauseState
  | [], st => .ok st
  | r :: rest, st =>
      match r with
      | .arrayRef _ _ => .error err
      | _ =>
          add_bound_refs err rest
            (if ¬ memb r st.firstprivate_list ∧ ¬ memb r st.private_list ∧
                ¬ memb r st.shared_list then
              { st with firstprivate_list := st.firstprivate_list ++ [r] }
             else st)

/-- The part of `_evaluate_loop` (lines 1975-2089) that precedes the
body recursion: register a proxy binding when the start expression
qualifies, reject a shared loop variable, make the loop variable
private and the proxied parent variable firstprivate, and check and
classify the bound references.  Returns the clause state and the proxy
map for the body walk (the registration that decides the `to_remove`
pop on exit is the pure `loop_proxy_registration` condition). -/
def evaluate_loop_prelude (ctx : TaskCtx) (v : String)
    (start_expr stop_expr step_expr : PExpr) (pm : ProxyMap)
    (st : ClauseState) :
    Except GenError (ClauseState × ProxyMap) :=
  let reg := loop_proxy_registration ctx start_expr
  let pm1 := match reg with
    | some info => insert_key pm v info
    | none => pm
  if ¬ memb v ctx.parallel_private then .error GenError.sharedLoopVariable
  else
    let st1 :=
      if ¬ memb (PExpr.ref v) st.firstprivate_list ∧
         ¬ memb (PExpr.ref v) st.private_list then
        { st with private_list := st.private_list ++ [PExpr.ref v] }
      else st
    let st2 := match reg with
      | some info =>
          if ¬ memb (PExpr.ref info.parent_var) st1.firstprivate_list then
            { st1 with firstprivate_list :=
                st1.firstprivate_list ++ [PExpr.ref info.parent_var] }
          else st1
      | none => st1
    match add_bound_refs GenError.arrayRefInLoopStart
        (walkRefNodes start_expr) st2 with
    | .error e => .error e
    | .ok st3 =>
        match add_bound_refs GenError.arrayRefInLoopStop
            (walkRefNodes stop_expr) st3 with
        | .error e => .error e
        | .ok st4 =>
            match add_bound_refs GenError.arrayRefInLoopStep
                (walkRefNodes step_expr) st4 with
            | .error e => .error e
            | .ok st5 => .ok (st5, pm1)

mutual

/-- `_evaluate_node` (lines 2141-2179): dispatch on Assignment, Loop,
IfBlock; all other statement kinds are ignored.  The Loop case is
`_evaluate_loop` (lines 1975-2098): its prelude, then the body walk
under the extended proxy map, then the pop of the binding registered on
entry. -/
def evaluate_node (ctx : TaskCtx) (alv : List String) :
    PStmt → ProxyMap → ClauseState →
    Except GenError (ClauseState × ProxyMap)
  | .assign lhs rhs, pm, st =>
      match eval_write_reference ctx pm alv lhs st with
      | .error e => .error e
      | .ok st1 =>
          match eval_ro_ref_list ctx pm alv (walkRefNodes rhs) st1 with
          | .error e => .error e
          | .ok st2 => .ok (st2, pm)
  | .loop v a b c body, pm, st =>
      match evaluate_loop_prelude ctx v a b c pm st with
      | .error e => .error e
      | .ok (st5, pm1) =>
          match evaluate_stmt_list ctx alv body pm1 st5 with
          | .error e => .error e
          | .ok (st6, pm2) =>
              .ok (st6, match loop_proxy_registration ctx a with
                | some _ => pop_key pm2 v
                | none => pm2)
  | .ifblock cond tb eb, pm, st =>
      match eval_ro_ref_list ctx pm alv (walkRefNodes cond) st with
      | .error e => .error e
      | .ok st1 =>
          match evaluate_stmt_list ctx alv tb pm st1 with
          | .error e => .error e
          | .ok (st2, pm2) => evaluate_stmt_list ctx alv eb pm2 st2
  | .otherStmt _, pm, st => .ok (st, pm)

/-- The statement loops of `_evaluate_loop` (line 2092) and
`_evaluate_ifblock` / `_compute_clauses`. -/
def evaluate_stmt_list (ctx : TaskCtx) (alv : List String) :
    PStmtList → ProxyMap → ClauseState →
    Except GenError (ClauseState × ProxyMap)
  | .nil, pm, st => .ok (st, pm)
  | .cons s rest, pm, st =>
      match evaluate_node ctx alv s pm st with
      | .error e => .error e
      | .ok (st1, pm1) => evaluate_stmt_list ctx alv rest pm1 st1

end

/-- The task directive: its body schedule (children[0].children). -/
structure TaskDir where
  body : PStmtList
  deriving Repr

/-- `OMPTaskDirective._compute_clauses` (lines 2181-2242): the body must
contain exactly one statement and it must be a Loop, then the walk runs
from an empty proxy map and empty clause lists (the parent-loop context
collected beforehand by `_find_parent_loop_vars` is the `ctx`
argument). -/
def compute_clauses (ctx : TaskCtx) (task : TaskDir) :
    Except GenError ClauseState :=
  match task.body with
  | .cons s .nil =>
      match s with
      | .loop v a b c bd =>
          match evaluate_node ctx (stmtLoopVars (PStmt.loop v a b c bd))
              (PStmt.loop v a b c bd) [] initState with
          | .ok (st, _) => .ok st
          | .error e => .error e
      | _ => .error GenError.taskBodyChildNotLoop
  | _ => .error GenError.taskBodyNotSingleChild

/-- A task node with its five clause children (children[1..5]). -/
structure TaskNode where
  body : PStmtList
  clause_children : ClauseState
  deriving Repr

/-- `OMPTaskDirective.begin_string` (lines 2244-2268): computes the
clauses and only then replaces the five clause children; when
`_compute_clauses` raises, the exception propagates and the children
are left untouched. -/
def begin_string (ctx : TaskCtx) (task : TaskNode) :
    Except GenError (TaskNode × String) :=
  match compute_clauses ctx ⟨task.body⟩ with
  | .error e => .error e
  | .ok cls => .ok ({ task with clause_children := cls }, "omp task")

theorem assoc_lookup_isSome {β : Type} (l : List (String × β)) (k : String) :
    (assoc_lookup l k).isSome = true ↔ k ∈ l.map Prod.fst := by
  induction l with
  | nil => simp [assoc_lookup]
  | cons p rest ih =>
      obtain ⟨k2, v⟩ := p
      by_cases h : k2 = k
      · subst h
        simp [assoc_lookup]
      · simp [assoc_lookup, h, ih]
        tauto

theorem lookup_pop_key_self (m : ProxyMap) (k : String) :
    lookup_proxy (pop_key m k) k = none := by
  induction m with
  | nil => rfl
  | cons p rest ih =>
      obtain ⟨k2, v⟩ := p
      by_cases h : k2 = k
      · simpa [pop_key, h] using ih
      · simpa [pop_key, lookup_proxy, assoc_lookup, h] using ih

/-- The shape `_compute_clauses` demands of the task body: exactly one
statement, and that statement a Loop. -/
def task_body_is_single_loop : PStmtList → Bool
  | .cons (PStmt.loop _ _ _ _ _) .nil => true
  | _ => false

/-- Claim C4: task clause computation raises a hard error whenever the
task body does not contain exactly one statement or that statement is
not a loop, and produces a clause set only when both conditions hold. -/
theorem compute_clauses_requires_single_loop (ctx : TaskCtx)
    (task : TaskDir) :
    (task_body_is_single_loop task.body = false →
       ∃ e, compute_clauses ctx task = Except.error e ∧
         (e = GenError.taskBodyNotSingleChild ∨
          e = GenError.taskBodyChildNotLoop)) ∧
    (∀ st, compute_clauses ctx task = Except.ok st →
       ∃ v a b c bd,
         task.body = PStmtList.cons (PStmt.loop v a b c bd) PStmtList.nil) := by
  obtain ⟨body⟩ := task
  constructor
  · intro h
    match body with
    | .nil => exact ⟨_, rfl, Or.inl rfl⟩
    | .cons (PStmt.loop v a b c bd) .nil =>
        simp [task_body_is_single_loop] at h
    | .cons (PStmt.assign lhs rhs) .nil => exact ⟨_, rfl, Or.inr rfl⟩
    | .cons (PStmt.ifblock cond tb eb) .nil => exact ⟨_, rfl, Or.inr rfl⟩
    | .cons (PStmt.otherStmt t) .nil => exact ⟨_, rfl, Or.inr rfl⟩
    | .cons s (.cons s2 rest) => exact ⟨_, rfl, Or.inl rfl⟩
  · intro st h
    match body with
    | .nil => exact absurd h (by simp [compute_clauses])
    | .cons (PStmt.loop v a b c bd) .nil => exact ⟨v, a, b, c, bd, rfl⟩
    | .cons (PStmt.assign lhs rhs) .nil =>
        exact absurd h (by simp [compute_clauses])
    | .cons (PStmt.ifblock cond tb eb) .nil =>
        exact absurd h (by simp [compute_clauses])
    | .cons (PStmt.otherStmt t) .nil =>
        exact absurd h (by simp [compute_clauses])
    | .cons s (.cons s2 rest) =>
        exact absurd h (by simp [compute_clauses])

/-- Witness for C4: a task with an empty body is rejected. -/
theorem compute_clauses_requires_single_loop_witness :
    ∃ e, compute_clauses ⟨[], [], []⟩ ⟨PStmtList.nil⟩ = Except.error e ∧
      (e = GenError.taskBodyNotSingleChild ∨
       e = GenError.taskBodyChildNotLoop) :=
  (compute_clauses_requires_single_loop ⟨[], [], []⟩ ⟨PStmtList.nil⟩).1 rfl

/-- Claim C5, counterexample: a loop whose start expression is the
BinaryOperation `i + 1` (not itself a Reference) still registers a
ProxyLoopBinding, because the code only counts the Reference nodes the
walk of the start expression finds. -/
theorem proxy_registration_counterexample :
    loop_proxy_registration ⟨["i", "ii"], [("i", PExpr.lit 1)], []⟩
        (PExpr.binop BOp.add (PExpr.ref "i") (PExpr.lit 1)) =
      some ⟨"i", PExpr.lit 1⟩ ∧
    (∀ s, PExpr.binop BOp.add (PExpr.ref "i") (PExpr.lit 1) ≠ PExpr.ref s) :=
  ⟨rfl, fun _ h => PExpr.noConfusion h⟩

/-- Claim C5 (amended): while descending a task loop nest, a
ProxyLoopBinding for the loop variable is registered iff the walk of
the loop start expression yields exactly one Reference node and the
symbol of that node is one of the enclosing parallel-region loop
variables — the start expression need not be exactly that Reference —
and on a successful evaluation of the loop the proxy map carries no
binding for that loop variable any more (the binding registered on
entry is popped on exit). -/
theorem proxy_registration_iff_and_removed (ctx : TaskCtx)
    (alv : List String) (v : String) (a b c : PExpr) (body : PStmtList)
    (pm : ProxyMap) (st : ClauseState) :
    ((loop_proxy_registration ctx a).isSome = true ↔
       ∃ r, walkRefNodes a = [r] ∧
         exprSymbol r ∈ ctx.parent_loops.map Prod.fst) ∧
    (∀ st2 pm2,
       evaluate_node ctx alv (PStmt.loop v a b c body) pm st =
         Except.ok (st2, pm2) →
       (loop_proxy_registration ctx a).isSome = true →
       lookup_proxy pm2 v = none) := by
  constructor
  · unfold loop_proxy_registration
    match hw : walkRefNodes a with
    | [] => simp
    | [r] =>
        have hiff := assoc_lookup_isSome ctx.parent_loops (exprSymbol r)
        cases h : assoc_lookup ctx.parent_loops (exprSymbol r) with
        | none =>
            rw [h] at hiff
            simp only [Option.isSome_none, Bool.false_eq_true, false_iff]
              at hiff
            simp only [h, Option.isSome_none, Bool.false_eq_true,
              false_iff, not_exists]
            intro r2 hcon
            rw [List.cons.injEq] at hcon
            obtain ⟨⟨hr, _⟩, hmem⟩ := hcon
            exact hiff (by rw [hr]; exact hmem)
        | some step_expr =>
            rw [h] at hiff
            simp only [Option.isSome_some, true_iff] at hiff
            simp only [h, Option.isSome_some, true_iff]
            exact ⟨r, rfl, hiff⟩
    | r :: r2 :: rest => simp
  · intro st2 pm2 hev hsome
    obtain ⟨info, hinfo⟩ := Option.isSome_iff_exists.mp hsome
    cases hpre : evaluate_loop_prelude ctx v a b c pm st with
    | error e => simp [evaluate_node, hpre] at hev
    | ok res =>
        obtain ⟨st5, pm1⟩ := res
        cases hbody : evaluate_stmt_list ctx alv body pm1 st5 with
        | error e => simp [evaluate_node, hpre, hbody] at hev
        | ok res2 =>
            obtain ⟨st6, pmb⟩ := res2
            simp only [evaluate_node, hpre, hbody, hinfo] at hev
            simp only [Except.ok.injEq, Prod.mk.injEq] at hev
            obtain ⟨h1, h2⟩ := hev
            rw [← h2]
            exact lookup_pop_key_self pmb v

/-- Witness for C5 (amended): a loop `do ii = i, 10, 1` under parent
loop variable `i` registers a proxy, evaluates successfully, and the
resulting proxy map has no binding for `ii`. -/
theorem proxy_registration_iff_and_removed_witness :
    (loop_proxy_registration ⟨["ii", "i"], [("i", PExpr.lit 1)], []⟩
        (PExpr.ref "i")).isSome = true ∧
    lookup_proxy ([] : ProxyMap) "ii" = none := by
  have h := proxy_registration_iff_and_removed
    ⟨["ii", "i"], [("i", PExpr.lit 1)], []⟩ ["ii"] "ii"
    (PExpr.ref "i") (PExpr.lit 10) (PExpr.lit 1) PStmtList.nil [] initState
  refine ⟨rfl, ?_⟩
  exact h.2 ⟨[PExpr.ref "ii"], [PExpr.ref "i"], [], [], []⟩ [] rfl rfl

/-! ## Task-Pair Dependency Validator: the both-loops case
(`OMPSerialDirective._validate_satisfiable_task_dependencies`,
omp_directives.py lines 451-467, duplicated at 636-652) -/

inductive PairOutcome where
  | accepted
  | rejected
  | nameError
  deriving DecidableEq, Repr

/-- Lines 451-467 as written: when the last prior writes to the two
indices of a same-dimension pair are both Loops, the code first rejects
(`assert False`) unless both loop start expressions (`children[0]`) are
Literals (lines 455-456); the following check (line 459) evaluates
`last_write.children[2]` and `last_write_3.children[2]`, but the names
`last_write` and `last_write_3` are bound nowhere in the function, so
execution raises `NameError` there.  Lines 463-467 — the start equality
check, and a step comparison of `last_write_2.children[2]` against
itself — are unreachable. -/
def both_loops_index_check (lw1_start lw1_step lw2_start lw2_step : PExpr) :
    PairOutcome :=
  if ¬ isLitNode lw1_start ∨ ¬ isLitNode lw2_start then PairOutcome.rejected
  else PairOutcome.nameError

/-- The both-loops case as spec §4.5 states it (a reference definition
following the spec wording, for comparison with the code): the two
start expressions and the two step expressions must each be literal and
pairwise equal, in which case the pair is accepted; any other
combination is rejected. -/
def both_loops_index_check_spec
    (lw1_start lw1_step lw2_start lw2_step : PExpr) : PairOutcome :=
  if isLitNode lw1_start ∧ isLitNode lw2_start ∧
     isLitNode lw1_step ∧ isLitNode lw2_step ∧
     lw1_start = lw2_start ∧ lw1_step = lw2_step then PairOutcome.accepted
  else PairOutcome.rejected

/-- Claim C6: on two loops with equal literal starts and equal literal
steps the spec-stated check accepts, but the code raises `NameError`
(it never accepts any input, and its step comparisons are unreachable or
vacuous). -/
theorem both_loops_equal_literals_diverge :
    both_loops_index_check (PExpr.lit 1) (PExpr.lit 1)
        (PExpr.lit 1) (PExpr.lit 1) = PairOutcome.nameError ∧
    both_loops_index_check_spec (PExpr.lit 1) (PExpr.lit 1)
        (PExpr.lit 1) (PExpr.lit 1) = PairOutcome.accepted ∧
    (∀ s1 t1 s2 t2,
       both_loops_index_check s1 t1 s2 t2 ≠ PairOutcome.accepted) := by
  refine ⟨rfl, by decide, ?_⟩
  intro s1 t1 s2 t2
  unfold both_loops_index_check
  split <;> simp

/-! ## Directive Structural Validator -/

/-- Kinds of directive ancestor relevant to
`OMPTaskDirective.validate_global_constraints` (an OMPSingle or
OMPMaster directive is an `OMPSerialDirective`). -/
inductive AncestorKind where
  | ompSerial
  | ompParallel
  | loopAncestor
  | otherAncestor
  deriving DecidableEq, Repr

/-- `OMPTaskDirective.validate_global_constraints` (lines 1185-1201):
raise a GenerationError unless `self.ancestor(OMPSerialDirective)`
finds an enclosing serial region; the task body plays no part in the
check. -/
def task_validate_global_constraints (ancestors : List AncestorKind)
    (body : PStmtList) : Except GenError Unit :=
  if ¬ memb AncestorKind.ompSerial ancestors then
    Except.error GenError.notInSerialRegion
  else Except.ok ()

/-- Claim C8: task validation raises a structural error exactly when
the directive has no enclosing serial-region ancestor, independently of
the task body. -/
theorem task_requires_serial_ancestor (ancestors : List AncestorKind)
    (body body2 : PStmtList) :
    (task_validate_global_constraints ancestors body = Except.ok () ↔
       AncestorKind.ompSerial ∈ ancestors) ∧
    task_validate_global_constraints ancestors body =
      task_validate_global_constraints ancestors body2 ∧
    (AncestorKind.ompSerial ∉ ancestors →
       task_validate_global_constraints ancestors body =
         Except.error GenError.notInSerialRegion) := by
  refine ⟨?_, rfl, ?_⟩
  · unfold task_validate_global_constraints
    by_cases h : AncestorKind.ompSerial ∈ ancestors
    · simp [(memb_iff _ _).mpr h, h]
    · have : memb AncestorKind.ompSerial ancestors = false := by
        cases hm : memb AncestorKind.ompSerial ancestors
        · rfl
        · exact absurd ((memb_iff _ _).mp hm) h
      simp [this, h]
  · intro h
    unfold task_validate_global_constraints
    have : memb AncestorKind.ompSerial ancestors = false := by
      cases hm : memb AncestorKind.ompSerial ancestors
      · rfl
      · exact absurd ((memb_iff _ _).mp hm) h
    simp [this]

/-- Witness for C8: a task with no ancestors at all is rejected. -/
theorem task_requires_serial_ancestor_witness :
    task_validate_global_constraints [] PStmtList.nil =
      Except.error GenError.notInSerialRegion :=
  (task_requires_serial_ancestor [] PStmtList.nil PStmtList.nil).2.2
    (by simp)

/-! ## The task node child shape
(`OMPTaskDirective.__init__` / `_validate_child`, lines 1134-1183) -/

inductive DependClauseType where
  | dependIn
  | dependOut
  | dependInout
  deriving DecidableEq, Repr

/-- The classification of a candidate child node that
`_validate_child` discriminates on (`isinstance` checks). -/
inductive TaskChildClass where
  | schedule
  | ompPrivateClause
  | ompFirstprivateClause
  | ompSharedClause
  | ompDependClause (t : DependClauseType)
  | otherChild
  deriving DecidableEq, Repr

/-- `OMPTaskDirective._validate_child` (lines 1154-1183): Schedule at
position 0, OMPPrivateClause at 1, OMPFirstprivateClause at 2,
OMPSharedClause at 3, OMPDependClause (of either depend type) at 4 and
5, and nothing anywhere else. -/
def omp_task_validate_child (position : Nat) (child : TaskChildClass) :
    Bool :=
  if position = 0 then
    match child with
    | TaskChildClass.schedule => true
    | _ => false
  else if position = 1 then
    match child with
    | TaskChildClass.ompPrivateClause => true
    | _ => false
  else if position = 2 then
    match child with
    | TaskChildClass.ompFirstprivateClause => true
    | _ => false
  else if position = 3 then
    match child with
    | TaskChildClass.ompSharedClause => true
    | _ => false
  else if position = 4 ∨ position = 5 then
    match child with
    | TaskChildClass.ompDependClause _ => true
    | _ => false
  else false

/-- `OMPTaskDirective.__init__` (lines 1134-1145): the base `Directive`
constructor (outside the analyzed sources; spec §3 gives a directive a
body Schedule plus clause children) leaves the node with its Schedule,
then the five dummy clauses are appended in order, the two Depend
clauses with IN and then OUT depend type. -/
def omp_task_init_children : List TaskChildClass :=
  [TaskChildClass.schedule, TaskChildClass.ompPrivateClause,
   TaskChildClass.ompFirstprivateClause, TaskChildClass.ompSharedClause,
   TaskChildClass.ompDependClause DependClauseType.dependIn,
   TaskChildClass.ompDependClause DependClauseType.dependOut]

/-- Claim C10: a fresh OMPTaskDirective has exactly the six children
Schedule, OMPPrivateClause, OMPFirstprivateClause, OMPSharedClause,
Depend-IN, Depend-OUT in that order; `_validate_child` permits exactly
a Schedule at position 0 and exactly those clause classes at positions
1 through 5 (either depend type at 4 and 5), and rejects every other
position; the initial shape satisfies `_validate_child` at every
position. -/
theorem omp_task_child_shape :
    omp_task_init_children =
      [TaskChildClass.schedule, TaskChildClass.ompPrivateClause,
       TaskChildClass.ompFirstprivateClause, TaskChildClass.ompSharedClause,
       TaskChildClass.ompDependClause DependClauseType.dependIn,
       TaskChildClass.ompDependClause DependClauseType.dependOut] ∧
    omp_task_init_children.length = 6 ∧
    ((List.range 6).all (fun i =>
        omp_task_validate_child i
          (omp_task_init_children.getD i TaskChildClass.otherChild))
      = true) ∧
    (∀ position child,
       omp_task_validate_child position child = true ↔
         (position = 0 ∧ child = TaskChildClass.schedule) ∨
         (position = 1 ∧ child = TaskChildClass.ompPrivateClause) ∨
         (position = 2 ∧ child = TaskChildClass.ompFirstprivateClause) ∨
         (position = 3 ∧ child = TaskChildClass.ompSharedClause) ∨
         ((position = 4 ∨ position = 5) ∧
            ∃ t, child = TaskChildClass.ompDependClause t)) := by
  refine ⟨rfl, rfl, by decide, ?_⟩
  intro position child
  match position with
  | 0 => cases child <;> simp [omp_task_validate_child]
  | 1 => cases child <;> simp [omp_task_validate_child]
  | 2 => cases child <;> simp [omp_task_validate_child]
  | 3 => cases child <;> simp [omp_task_validate_child]
  | 4 => cases child <;> simp [omp_task_validate_child]
  | 5 => cases child <;> simp [omp_task_validate_child]
  | n + 6 =>
      have h0 : n + 6 ≠ 0 := by omega
      have h1 : n + 6 ≠ 1 := by omega
      have h2 : n + 6 ≠ 2 := by omega
      have h3 : n + 6 ≠ 3 := by omega
      have h4 : n + 6 ≠ 4 := by omega
      have h5 : n + 6 ≠ 5 := by omega
      simp [omp_task_validate_child, h0, h1, h2, h3, h4, h5]

/-! ## Rejection monotonicity (claim C7)

The unsupported subscript shapes of the claim, as decidable predicates
over the task region, and the proof that any of them forces
`_compute_clauses` to raise before a clause set is produced. -/

/-- Subscript shapes that make the write path raise at once: a plain
Reference to a variable not private in the parallel region (a shared
index), an array reference used as a subscript, or a BinaryOperation
with a disallowed operator or without the one-Reference-one-Literal
child shape. -/
def write_err_subscript (pp : List String) : PExpr → Bool
  | .ref s => ! memb s pp
  | .binop op a b =>
      decide (¬ (op = BOp.add ∨ op = BOp.sub)) ||
      decide (¬ ((isRefLike a ∧ isLitNode b) ∨ (isLitNode a ∧ isRefLike b)))
  | .arrayRef _ _ => true
  | _ => false

/-- Subscript node kinds the write path silently skips (no `else`
clause at lines 1788-1841): anything other than a Literal, a Reference
or a BinaryOperation. -/
def skip_subscript : PExpr → Bool
  | .rangeIx _ _ => true
  | .otherNode _ => true
  | _ => false

/-- An unsupported subscript shape: every such subscript makes the read
path raise at once, and the write path either raise at once or skip the
subscript (shrinking the synthesized index list below the array rank). -/
def bad_subscript (pp : List String) (e : PExpr) : Bool :=
  write_err_subscript pp e || skip_subscript e

/-- A reference with an unsupported index shape, as met in a read walk. -/
def bad_read_ref (pp : List String) : PExpr → Bool
  | .arrayRef _ idxs => idxs.any (bad_subscript pp)
  | _ => false

theorem handle_index_binop_bad (ctx : TaskCtx) (pm : ProxyMap)
    (alv : List String) (arr_sym : String) (dim_so_far : Nat)
    (op : BOp) (a b : PExpr) (st : ClauseState)
    (h : write_err_subscript ctx.parallel_private (PExpr.binop op a b)
          = true) :
    ∃ e, handle_index_binop ctx pm alv arr_sym dim_so_far
          (PExpr.binop op a b) st = Except.error e := by
  simp only [write_err_subscript, Bool.or_eq_true, decide_eq_true_eq] at h
  unfold handle_index_binop
  by_cases h1 : op = BOp.add ∨ op = BOp.sub
  · have h2 : ¬ ((isRefLike a ∧ isLitNode b) ∨
        (isLitNode a ∧ isRefLike b)) := by tauto
    exact ⟨GenError.binopChildrenNotRefAndLit, by simp [h1, h2]⟩
  · exact ⟨GenError.unsupportedBinopOperator, by simp [h1]⟩

theorem eval_index_reference_not_private (ctx : TaskCtx) (pm : ProxyMap)
    (alv : List String) (arr_sym : String) (dim : Nat)
    (ilist : List (List PExpr)) (nd : PExpr) (st : ClauseState)
    (h : in_parallel_private ctx.parallel_private nd = false) :
    eval_index_reference ctx pm alv arr_sym dim ilist nd st =
      Except.error GenError.sharedVariableIndex := by
  unfold eval_index_reference
  simp [h]

theorem eval_write_index_err (ctx : TaskCtx) (pm : ProxyMap)
    (alv : List String) (arr_sym : String) (dim : Nat)
    (ilist : List (List PExpr)) (idx : PExpr) (st : ClauseState)
    (h : write_err_subscript ctx.parallel_private idx = true) :
    ∃ e, eval_write_index ctx pm alv arr_sym dim ilist idx st =
      Except.error e := by
  match idx with
  | .lit n => simp [write_err_subscript] at h
  | .rangeIx lo hi => simp [write_err_subscript] at h
  | .otherNode t => simp [write_err_subscript] at h
  | .ref s =>
      refine ⟨GenError.sharedVariableIndex, ?_⟩
      unfold eval_write_index
      apply eval_index_reference_not_private
      simp only [write_err_subscript, Bool.not_eq_true'] at h
      simp [in_parallel_private, h]
  | .arrayRef s idxs =>
      refine ⟨GenError.sharedVariableIndex, ?_⟩
      unfold eval_write_index
      apply eval_index_reference_not_private
      rfl
  | .binop op a b =>
      obtain ⟨e, he⟩ := handle_index_binop_bad ctx pm alv arr_sym
        ilist.length op a b st h
      refine ⟨e, ?_⟩
      have hstep : eval_write_index ctx pm alv arr_sym dim ilist
          (PExpr.binop op a b) st =
          (match handle_index_binop ctx pm alv arr_sym ilist.length
              (PExpr.binop op a b) st with
           | Except.ok (entry, st1) => Except.ok (ilist ++ [entry], st1)
           | Except.error e2 => Except.error e2) := rfl
      rw [hstep, he]

theorem eval_write_index_skip (ctx : TaskCtx) (pm : ProxyMap)
    (alv : List String) (arr_sym : String) (dim : Nat)
    (ilist : List (List PExpr)) (idx : PExpr) (st : ClauseState)
    (h : skip_subscript idx = true) :
    eval_write_index ctx pm alv arr_sym dim ilist idx st =
      Except.ok (ilist, st) := by
  match idx with
  | .rangeIx lo hi => rfl
  | .otherNode t => rfl
  | .lit n => simp [skip_subscript] at h
  | .ref s => simp [skip_subscript] at h
  | .arrayRef s idxs => simp [skip_subscript] at h
  | .binop op a b => simp [skip_subscript] at h

theorem eval_ro_index_bad (ctx : TaskCtx) (pm : ProxyMap)
    (alv : List String) (arr_sym : String) (dim : Nat)
    (ilist : List (List PExpr)) (idx : PExpr) (st : ClauseState)
    (h : bad_subscript ctx.parallel_private idx = true) :
    ∃ e, eval_ro_index ctx pm alv arr_sym dim ilist idx st =
      Except.error e := by
  match idx with
  | .lit n => simp [bad_subscript, write_err_subscript, skip_subscript] at h
  | .rangeIx lo hi => exact ⟨GenError.indexTypeNotAllowed, rfl⟩
  | .otherNode t => exact ⟨GenError.indexTypeNotAllowed, rfl⟩
  | .arrayRef s idxs => exact ⟨GenError.indexTypeNotAllowed, rfl⟩
  | .ref s =>
      refine ⟨GenError.sharedVariableIndex, ?_⟩
      unfold eval_ro_index
      apply eval_index_reference_not_private
      simp only [bad_subscript, write_err_subscript, skip_subscript,
        Bool.or_eq_true, Bool.not_eq_true'] at h
      simp [in_parallel_private]
      tauto
  | .binop op a b =>
      have hw : write_err_subscript ctx.parallel_private
          (PExpr.binop op a b) = true := by
        simpa [bad_subscript, skip_subscript] using h
      obtain ⟨e, he⟩ := handle_index_binop_bad ctx pm alv arr_sym
        ilist.length op a b st hw
      refine ⟨e, ?_⟩
      have hstep : eval_ro_index ctx pm alv arr_sym dim ilist
          (PExpr.binop op a b) st =
          (match handle_index_binop ctx pm alv arr_sym ilist.length
              (PExpr.binop op a b) st with
           | Except.ok (entry, st1) => Except.ok (ilist ++ [entry], st1)
           | Except.error e2 => Except.error e2) := rfl
      rw [hstep, he]

theorem synth_binops_ne_nil (op : BOp) (ref_first : Bool) (real_ref : PExpr)
    (s o : Nat) : synth_binops op ref_first real_ref s o ≠ [] := by
  unfold synth_binops
  by_cases hm : o % s = 0
  · simp [hm]
  · cases hsp : (synth_steps (ceil_div o s) s).2 <;> simp [hm, hsp]

theorem handle_index_binop_ok_nonempty (ctx : TaskCtx) (pm : ProxyMap)
    (alv : List String) (arr_sym : String) (dim_so_far : Nat)
    (node : PExpr) (st : ClauseState) (entry : List PExpr)
    (st1 : ClauseState)
    (h : handle_index_binop ctx pm alv arr_sym dim_so_far node st =
      Except.ok (entry, st1)) : entry ≠ [] := by
  match node with
  | .lit _ => exact Except.noConfusion h
  | .ref _ => exact Except.noConfusion h
  | .arrayRef _ _ => exact Except.noConfusion h
  | .rangeIx _ _ => exact Except.noConfusion h
  | .otherNode _ => exact Except.noConfusion h
  | .binop op c0 c1 =>
      simp only [handle_index_binop] at h
      repeat' split at h
      all_goals
        first
          | exact Except.noConfusion h
          | (simp only [Except.ok.injEq, Prod.mk.injEq] at h
             rw [← h.1]
             first
               | exact synth_binops_ne_nil _ _ _ _ _
               | simp)

theorem eval_index_reference_ok_shape (ctx : TaskCtx) (pm : ProxyMap)
    (alv : List String) (arr_sym : String) (dim : Nat)
    (ilist : List (List PExpr)) (nd : PExpr) (st : ClauseState)
    (ilist1 : List (List PExpr)) (st1 : ClauseState)
    (h : eval_index_reference ctx pm alv arr_sym dim ilist nd st =
      Except.ok (ilist1, st1)) :
    ∃ entry, entry ≠ [] ∧ ilist1 = ilist ++ [entry] := by
  simp only [eval_index_reference] at h
  repeat' split at h
  all_goals
    first
      | exact Except.noConfusion h
      | (simp only [Except.ok.injEq, Prod.mk.injEq] at h
         exact ⟨_, by simp, h.1.symm⟩)

theorem eval_write_index_ok_shape (ctx : TaskCtx) (pm : ProxyMap)
    (alv : List String) (arr_sym : String) (dim : Nat)
    (ilist : List (List PExpr)) (idx : PExpr) (st : ClauseState)
    (ilist1 : List (List PExpr)) (st1 : ClauseState)
    (h : eval_write_index ctx pm alv arr_sym dim ilist idx st =
      Except.ok (ilist1, st1)) :
    ilist1 = ilist ∨ ∃ entry, entry ≠ [] ∧ ilist1 = ilist ++ [entry] := by
  match idx with
  | .lit n =>
      simp only [eval_write_index, Except.ok.injEq, Prod.mk.injEq] at h
      exact Or.inr ⟨_, by simp, h.1.symm⟩
  | .rangeIx lo hi =>
      simp only [eval_write_index, Except.ok.injEq, Prod.mk.injEq] at h
      exact Or.inl h.1.symm
  | .otherNode t =>
      simp only [eval_write_index, Except.ok.injEq, Prod.mk.injEq] at h
      exact Or.inl h.1.symm
  | .ref s =>
      exact Or.inr (eval_index_reference_ok_shape ctx pm alv arr_sym dim
        ilist (PExpr.ref s) st ilist1 st1 h)
  | .arrayRef s idxs =>
      exact Or.inr (eval_index_reference_ok_shape ctx pm alv arr_sym dim
        ilist (PExpr.arrayRef s idxs) st ilist1 st1 h)
  | .binop op a b =>
      have hstep : eval_write_index ctx pm alv arr_sym dim ilist
          (PExpr.binop op a b) st =
          (match handle_index_binop ctx pm alv arr_sym ilist.length
              (PExpr.binop op a b) st with
           | Except.ok (entry, st2) => Except.ok (ilist ++ [entry], st2)
           | Except.error e2 => Except.error e2) := rfl
      rw [hstep] at h
      cases hh : handle_index_binop ctx pm alv arr_sym ilist.length
          (PExpr.binop op a b) st with
      | error e => rw [hh] at h; exact absurd h (by simp)
      | ok p =>
          obtain ⟨entry, st2⟩ := p
          rw [hh] at h
          simp only [Except.ok.injEq, Prod.mk.injEq] at h
          exact Or.inr ⟨entry,
            handle_index_binop_ok_nonempty ctx pm alv arr_sym ilist.length
              (PExpr.binop op a b) st entry st2 hh, h.1.symm⟩

theorem eval_index_list_write_err (ctx : TaskCtx) (pm : ProxyMap)
    (alv : List String) (arr_sym : String) :
    ∀ (idxs : List PExpr) (dim : Nat) (ilist : List (List PExpr))
      (st : ClauseState),
    idxs.any (write_err_subscript ctx.parallel_private) = true →
    ∃ e, eval_index_list (eval_write_index ctx pm alv arr_sym) idxs dim
      ilist st = Except.error e := by
  intro idxs
  induction idxs with
  | nil => intro dim ilist st h; simp at h
  | cons idx rest ih =>
      intro dim ilist st h
      rw [List.any_cons, Bool.or_eq_true] at h
      by_cases hidx : write_err_subscript ctx.parallel_private idx = true
      · obtain ⟨e, he⟩ := eval_write_index_err ctx pm alv arr_sym dim ilist
          idx st hidx
        exact ⟨e, by unfold eval_index_list; rw [he]⟩
      · have hrest : rest.any (write_err_subscript ctx.parallel_private)
            = true := by tauto
        cases hres : eval_write_index ctx pm alv arr_sym dim ilist idx st with
        | error e => exact ⟨e, by unfold eval_index_list; rw [hres]⟩
        | ok p =>
            obtain ⟨ilist1, st1⟩ := p
            obtain ⟨e, he⟩ := ih (dim + 1) ilist1 st1 hrest
            exact ⟨e, by unfold eval_index_list; rw [hres]; exact he⟩

theorem eval_index_list_ro_bad (ctx : TaskCtx) (pm : ProxyMap)
    (alv : List String) (arr_sym : String) :
    ∀ (idxs : List PExpr) (dim : Nat) (ilist : List (List PExpr))
      (st : ClauseState),
    idxs.any (bad_subscript ctx.parallel_private) = true →
    ∃ e, eval_index_list (eval_ro_index ctx pm alv arr_sym) idxs dim
      ilist st = Except.error e := by
  intro idxs
  induction idxs with
  | nil => intro dim ilist st h; simp at h
  | cons idx rest ih =>
      intro dim ilist st h
      rw [List.any_cons, Bool.or_eq_true] at h
      by_cases hidx : bad_subscript ctx.parallel_private idx = true
      · obtain ⟨e, he⟩ := eval_ro_index_bad ctx pm alv arr_sym dim ilist
          idx st hidx
        exact ⟨e, by unfold eval_index_list; rw [he]⟩
      · have hrest : rest.any (bad_subscript ctx.parallel_private)
            = true := by tauto
        cases hres : eval_ro_index ctx pm alv arr_sym dim ilist idx st with
        | error e => exact ⟨e, by unfold eval_index_list; rw [hres]⟩
        | ok p =>
            obtain ⟨ilist1, st1⟩ := p
            obtain ⟨e, he⟩ := ih (dim + 1) ilist1 st1 hrest
            exact ⟨e, by unfold eval_index_list; rw [hres]; exact he⟩

theorem eval_index_list_write_length (ctx : TaskCtx) (pm : ProxyMap)
    (alv : List String) (arr_sym : String) :
    ∀ (idxs : List PExpr) (dim : Nat) (ilist : List (List PExpr))
      (st : ClauseState) (ilist1 : List (List PExpr)) (st1 : ClauseState),
    eval_index_list (eval_write_index ctx pm alv arr_sym) idxs dim
      ilist st = Except.ok (ilist1, st1) →
    ilist1.length + idxs.countP (fun i => skip_subscript i) ≤
      ilist.length + idxs.length := by
  intro idxs
  induction idxs with
  | nil =>
      intro dim ilist st ilist1 st1 h
      simp only [eval_index_list, Except.ok.injEq, Prod.mk.injEq] at h
      simp [← h.1]
  | cons idx rest ih =>
      intro dim ilist st ilist1 st1 h
      unfold eval_index_list at h
      cases hres : eval_write_index ctx pm alv arr_sym dim ilist idx st with
      | error e => rw [hres] at h; exact absurd h (by simp)
      | ok p =>
          obtain ⟨ilista, sta⟩ := p
          rw [hres] at h
          have hbound := ih (dim + 1) ilista sta ilist1 st1 h
          rcases eval_write_index_ok_shape ctx pm alv arr_sym dim ilist idx
              st ilista sta hres with heq | ⟨entry, hne, heq⟩
          · subst heq
            rw [List.countP_cons]
            simp only [List.length_cons]
            split <;> omega
          · subst heq
            by_cases hskip : skip_subscript idx = true
            · have := eval_write_index_skip ctx pm alv arr_sym dim ilist
                idx st hskip
              rw [this] at hres
              simp only [Except.ok.injEq, Prod.mk.injEq] at hres
              exact absurd hres.1 (by simp)
            · have hcount : (idx :: rest).countP (fun i => skip_subscript i)
                  = rest.countP (fun i => skip_subscript i) := by
                rw [List.countP_cons]
                simp [hskip]
              rw [hcount]
              simp only [List.length_append, List.length_singleton,
                List.length_cons, List.length_nil] at hbound ⊢
              omega

theorem eval_index_list_write_nonempty (ctx : TaskCtx) (pm : ProxyMap)
    (alv : List String) (arr_sym : String) :
    ∀ (idxs : List PExpr) (dim : Nat) (ilist : List (List PExpr))
      (st : ClauseState) (ilist1 : List (List PExpr)) (st1 : ClauseState),
    eval_index_list (eval_write_index ctx pm alv arr_sym) idxs dim
      ilist st = Except.ok (ilist1, st1) →
    (∀ l ∈ ilist, l ≠ []) → ∀ l ∈ ilist1, l ≠ [] := by
  intro idxs
  induction idxs with
  | nil =>
      intro dim ilist st ilist1 st1 h hne
      simp only [eval_index_list, Except.ok.injEq, Prod.mk.injEq] at h
      rw [← h.1]
      exact hne
  | cons idx rest ih =>
      intro dim ilist st ilist1 st1 h hne
      unfold eval_index_list at h
      cases hres : eval_write_index ctx pm alv arr_sym dim ilist idx st with
      | error e => rw [hres] at h; exact absurd h (by simp)
      | ok p =>
          obtain ⟨ilista, sta⟩ := p
          rw [hres] at h
          refine ih (dim + 1) ilista sta ilist1 st1 h ?_
          rcases eval_write_index_ok_shape ctx pm alv arr_sym dim ilist idx
              st ilista sta hres with heq | ⟨entry, hene, heq⟩
          · subst heq; exact hne
          · subst heq
            intro l hl
            rcases List.mem_append.mp hl with hl2 | hl2
            · exact hne l hl2
            · rw [List.mem_singleton.mp hl2]
              exact hene

theorem list_product_length :
    ∀ (l : List (List PExpr)) (c : List PExpr),
    c ∈ list_product l → c.length = l.length := by
  intro l
  induction l with
  | nil =>
      intro c hc
      simp only [list_product, List.mem_singleton] at hc
      subst hc; rfl
  | cons x xs ih =>
      intro c hc
      simp only [list_product, List.mem_flatten, List.mem_map] at hc
      obtain ⟨sub, ⟨a, ha, rfl⟩, hsub⟩ := hc
      obtain ⟨c2, hc2, rfl⟩ := List.mem_map.mp hsub
      simp [ih c2 hc2]

theorem list_product_has_mem :
    ∀ (l : List (List PExpr)), (∀ x ∈ l, x ≠ []) →
    ∃ c, c ∈ list_product l := by
  intro l
  induction l with
  | nil => exact fun _ => ⟨[], by simp [list_product]⟩
  | cons x xs ih =>
      intro hne
      obtain ⟨c, hc⟩ := ih (fun y hy => hne y (by simp [hy]))
      have hx : x ≠ [] := hne x (by simp)
      match x, hx with
      | a :: x2, _ =>
          refine ⟨a :: c, ?_⟩
          simp only [list_product, List.mem_flatten, List.mem_map]
          exact ⟨(list_product xs).map (a :: ·), ⟨a, by simp, rfl⟩,
            List.mem_map.mpr ⟨c, hc, rfl⟩⟩

theorem eval_write_arrayref_bad (ctx : TaskCtx) (pm : ProxyMap)
    (alv : List String) (sym : String) (idxs : List PExpr)
    (st : ClauseState)
    (hbad : idxs.any (bad_subscript ctx.parallel_private) = true)
    (hrank : assoc_lookup ctx.array_rank sym = some idxs.length) :
    ∃ e, eval_write_arrayref ctx pm alv sym idxs st = Except.error e := by
  by_cases herr : idxs.any (write_err_subscript ctx.parallel_private) = true
  · obtain ⟨e, he⟩ := eval_index_list_write_err ctx pm alv sym idxs 0 [] st
      herr
    exact ⟨e, by unfold eval_write_arrayref; rw [he]⟩
  · have hskip : 0 < idxs.countP (fun i => skip_subscript i) := by
      rw [List.any_eq_true] at hbad
      obtain ⟨i, hi, hbi⟩ := hbad
      rw [List.countP_pos]
      refine ⟨i, hi, ?_⟩
      simp only [bad_subscript, Bool.or_eq_true] at hbi
      rcases hbi with hbi | hbi
      · exact absurd (List.any_eq_true.mpr ⟨i, hi, hbi⟩) herr
      · simpa using hbi
    cases hres : eval_index_list (eval_write_index ctx pm alv sym) idxs 0
        [] st with
    | error e => exact ⟨e, by unfold eval_write_arrayref; rw [hres]⟩
    | ok p =>
        obtain ⟨ilist, st1⟩ := p
        have hlen := eval_index_list_write_length ctx pm alv sym idxs 0 []
          st ilist st1 hres
        have hne := eval_index_list_write_nonempty ctx pm alv sym idxs 0 []
          st ilist st1 hres (by simp)
        have hlt : ilist.length < idxs.length := by
          simp only [List.length_nil, Nat.zero_add] at hlen
          omega
        obtain ⟨c0, hc0⟩ := list_product_has_mem ilist hne
        obtain ⟨c1, rest, hprod⟩ :=
          List.exists_cons_of_ne_nil (List.ne_nil_of_mem hc0)
        have hc1mem : c1 ∈ list_product ilist := by rw [hprod]; simp
        have hc1len : c1.length = ilist.length :=
          list_product_length ilist c1 hc1mem
        have hcreate : array_reference_create ctx sym c1 =
            Except.error GenError.arrayCreateRankMismatch := by
          unfold array_reference_create
          rw [hrank]
          have : c1.length ≠ idxs.length := by omega
          simp [this]
        refine ⟨GenError.arrayCreateRankMismatch, ?_⟩
        have hstep : eval_write_arrayref ctx pm alv sym idxs st =
            (match add_dep_entries ctx sym (list_product ilist)
                st1.out_list with
             | Except.error e => Except.error e
             | Except.ok out1 =>
                 Except.ok
                   (let st2 := { st1 with out_list := out1 }
                    if ¬ memb (PExpr.ref sym) st2.shared_list then
                      { st2 with shared_list :=
                          st2.shared_list ++ [PExpr.ref sym] }
                    else st2)) := by
          unfold eval_write_arrayref
          rw [hres]
        rw [hstep, hprod]
        have hadd : add_dep_entries ctx sym (c1 :: rest) st1.out_list =
            Except.error GenError.arrayCreateRankMismatch := by
          unfold add_dep_entries
          rw [hcreate]
        rw [hadd]

theorem eval_ro_arrayref_bad (ctx : TaskCtx) (pm : ProxyMap)
    (alv : List String) (sym : String) (idxs : List PExpr)
    (st : ClauseState)
    (hbad : idxs.any (bad_subscript ctx.parallel_private) = true) :
    ∃ e, eval_ro_arrayref ctx pm alv sym idxs st = Except.error e := by
  obtain ⟨e, he⟩ := eval_index_list_ro_bad ctx pm alv sym idxs 0 [] st hbad
  exact ⟨e, by unfold eval_ro_arrayref; rw [he]⟩

theorem eval_ro_reference_bad (ctx : TaskCtx) (pm : ProxyMap)
    (alv : List String) (r : PExpr) (st : ClauseState)
    (h : bad_read_ref ctx.parallel_private r = true) :
    ∃ e, eval_ro_reference ctx pm alv r st = Except.error e := by
  match r with
  | .arrayRef sym idxs =>
      obtain ⟨e, he⟩ := eval_ro_arrayref_bad ctx pm alv sym idxs st
        (by simpa [bad_read_ref] using h)
      exact ⟨e, he⟩
  | .ref s => simp [bad_read_ref] at h
  | .lit n => simp [bad_read_ref] at h
  | .binop op a b => simp [bad_read_ref] at h
  | .rangeIx lo hi => simp [bad_read_ref] at h
  | .otherNode t => simp [bad_read_ref] at h

theorem eval_ro_ref_list_bad (ctx : TaskCtx) (pm : ProxyMap)
    (alv : List String) :
    ∀ (refs : List PExpr) (st : ClauseState),
    refs.any (bad_read_ref ctx.parallel_private) = true →
    ∃ e, eval_ro_ref_list ctx pm alv refs st = Except.error e := by
  intro refs
  induction refs with
  | nil => intro st h; simp at h
  | cons r rest ih =>
      intro st h
      rw [List.any_cons, Bool.or_eq_true] at h
      by_cases hr : bad_read_ref ctx.parallel_private r = true
      · obtain ⟨e, he⟩ := eval_ro_reference_bad ctx pm alv r st hr
        exact ⟨e, by unfold eval_ro_ref_list; rw [he]⟩
      · have hrest : rest.any (bad_read_ref ctx.parallel_private) = true :=
          by tauto
        cases hres : eval_ro_reference ctx pm alv r st with
        | error e => exact ⟨e, by unfold eval_ro_ref_list; rw [hres]⟩
        | ok st1 =>
            obtain ⟨e, he⟩ := ih st1 hrest
            exact ⟨e, by unfold eval_ro_ref_list; rw [hres]; exact he⟩

/-! The decidable region predicates for claim C7: presence of a
reference with an unsupported index shape among the accesses the walk
classifies (written left-hand sides, and every reference reachable from
right-hand sides and conditions), and well-formedness of the declared
ranks of written arrays (the §3 front-end invariant that an ArrayRef
has one subscript per declared dimension). -/
mutual

def stmt_has_unsupported (pp : List String) : PStmt → Bool
  | .assign lhs rhs =>
      (match lhs with
       | .arrayRef _ idxs => idxs.any (bad_subscript pp)
       | _ => false) ||
      (walkRefNodes rhs).any (bad_read_ref pp)
  | .loop _ _ _ _ body => stmt_list_has_unsupported pp body
  | .ifblock cond t e =>
      (walkRefNodes cond).any (bad_read_ref pp) ||
      stmt_list_has_unsupported pp t || stmt_list_has_unsupported pp e
  | .otherStmt _ => false

def stmt_list_has_unsupported (pp : List String) : PStmtList → Bool
  | .nil => false
  | .cons s rest =>
      stmt_has_unsupported pp s || stmt_list_has_unsupported pp rest

end

mutual

def lhs_ranks_ok (ctx : TaskCtx) : PStmt → Bool
  | .assign (PExpr.arrayRef s idxs) _ =>
      assoc_lookup ctx.array_rank s == some idxs.length
  | .assign _ _ => true
  | .loop _ _ _ _ body => lhs_ranks_ok_list ctx body
  | .ifblock _ t e => lhs_ranks_ok_list ctx t && lhs_ranks_ok_list ctx e
  | .otherStmt _ => true

def lhs_ranks_ok_list (ctx : TaskCtx) : PStmtList → Bool
  | .nil => true
  | .cons s rest => lhs_ranks_ok ctx s && lhs_ranks_ok_list ctx rest

end

mutual

theorem evaluate_node_unsupported :
    ∀ (s : PStmt) (ctx : TaskCtx) (alv : List String) (pm : ProxyMap)
      (st : ClauseState),
    stmt_has_unsupported ctx.parallel_private s = true →
    lhs_ranks_ok ctx s = true →
    ∃ e, evaluate_node ctx alv s pm st = Except.error e
  | .assign lhs rhs, ctx, alv, pm, st => by
      intro hbad hrank
      simp only [stmt_has_unsupported, Bool.or_eq_true] at hbad
      cases hw : eval_write_reference ctx pm alv lhs st with
      | error e => exact ⟨e, by simp [evaluate_node, hw]⟩
      | ok st1 =>
          rcases hbad with hlhs | hrhs
          · match lhs, hlhs, hrank, hw with
            | .arrayRef s idxs, hlhs, hrank, hw =>
                have hr : assoc_lookup ctx.array_rank s =
                    some idxs.length := by
                  simpa [lhs_ranks_ok] using hrank
                obtain ⟨e, he⟩ := eval_write_arrayref_bad ctx pm alv s idxs
                  st hlhs hr
                rw [show eval_write_reference ctx pm alv
                    (PExpr.arrayRef s idxs) st =
                    eval_write_arrayref ctx pm alv s idxs st from rfl,
                  he] at hw
                exact Except.noConfusion hw
            | .ref s, hlhs, _, _ => exact Bool.noConfusion hlhs
            | .lit n, hlhs, _, _ => exact Bool.noConfusion hlhs
            | .binop o a b, hlhs, _, _ => exact Bool.noConfusion hlhs
            | .rangeIx lo hi, hlhs, _, _ => exact Bool.noConfusion hlhs
            | .otherNode t, hlhs, _, _ => exact Bool.noConfusion hlhs
          · obtain ⟨e, he⟩ := eval_ro_ref_list_bad ctx pm alv
              (walkRefNodes rhs) st1 hrhs
            exact ⟨e, by simp [evaluate_node, hw, he]⟩
  | .loop v a b c body, ctx, alv, pm, st => by
      intro hbad hrank
      simp only [stmt_has_unsupported] at hbad
      simp only [lhs_ranks_ok] at hrank
      cases hpre : evaluate_loop_prelude ctx v a b c pm st with
      | error e => exact ⟨e, by simp [evaluate_node, hpre]⟩
      | ok p =>
          obtain ⟨st5, pm1⟩ := p
          obtain ⟨e, he⟩ := evaluate_stmt_list_unsupported body ctx alv pm1
            st5 hbad hrank
          exact ⟨e, by simp [evaluate_node, hpre, he]⟩
  | .ifblock cond t e2, ctx, alv, pm, st => by
      intro hbad hrank
      simp only [stmt_has_unsupported, Bool.or_eq_true] at hbad
      simp only [lhs_ranks_ok, Bool.and_eq_true] at hrank
      cases hc : eval_ro_ref_list ctx pm alv (walkRefNodes cond) st with
      | error e => exact ⟨e, by simp [evaluate_node, hc]⟩
      | ok st1 =>
          rcases hbad with (hcond | ht) | he2
          · obtain ⟨e, hce⟩ := eval_ro_ref_list_bad ctx pm alv
              (walkRefNodes cond) st hcond
            rw [hce] at hc
            exact Except.noConfusion hc
          · cases hT : evaluate_stmt_list ctx alv t pm st1 with
            | error e => exact ⟨e, by simp [evaluate_node, hc, hT]⟩
            | ok p2 =>
                obtain ⟨st2, pm2⟩ := p2
                obtain ⟨e, hte⟩ := evaluate_stmt_list_unsupported t ctx alv
                  pm st1 ht hrank.1
                rw [hte] at hT
                exact Except.noConfusion hT
          · cases hT : evaluate_stmt_list ctx alv t pm st1 with
            | error e => exact ⟨e, by simp [evaluate_node, hc, hT]⟩
            | ok p2 =>
                obtain ⟨st2, pm2⟩ := p2
                obtain ⟨e, hee⟩ := evaluate_stmt_list_unsupported e2 ctx alv
                  pm2 st2 he2 hrank.2
                exact ⟨e, by simp [evaluate_node, hc, hT, hee]⟩
  | .otherStmt t, ctx, alv, pm, st => by
      intro hbad hrank
      exact Bool.noConfusion hbad

theorem evaluate_stmt_list_unsupported :
    ∀ (l : PStmtList) (ctx : TaskCtx) (alv : List String) (pm : ProxyMap)
      (st : ClauseState),
    stmt_list_has_unsupported ctx.parallel_private l = true →
    lhs_ranks_ok_list ctx l = true →
    ∃ e, evaluate_stmt_list ctx alv l pm st = Except.error e
  | .nil, ctx, alv, pm, st => by
      intro hbad hrank
      exact Bool.noConfusion hbad
  | .cons s rest, ctx, alv, pm, st => by
      intro hbad hrank
      simp only [stmt_list_has_unsupported, Bool.or_eq_true] at hbad
      simp only [lhs_ranks_ok_list, Bool.and_eq_true] at hrank
      cases hs : evaluate_node ctx alv s pm st with
      | error e => exact ⟨e, by simp [evaluate_stmt_list, hs]⟩
      | ok p =>
          obtain ⟨st1, pm1⟩ := p
          rcases hbad with hsb | hrest
          · obtain ⟨e, hse⟩ := evaluate_node_unsupported s ctx alv pm st
              hsb hrank.1
            rw [hse] at hs
            exact Except.noConfusion hs
          · obtain ⟨e, hre⟩ := evaluate_stmt_list_unsupported rest ctx alv
              pm1 st1 hrest hrank.2
            exact ⟨e, by simp [evaluate_stmt_list, hs, hre]⟩

end

/-- Claim C7: if any reference inside the task region has an
unsupported index shape (a shared variable used as an index, a
disallowed or malformed binary operation, or a subscript of a node kind
other than Reference/Literal/BinaryOperation), then — provided the
written arrays carry their declared ranks, the §3 front-end invariant —
clause computation raises before any clause set is produced, and
`begin_string` propagates the exception without replacing the five
existing clause children of the task node. -/
theorem compute_clauses_rejects_unsupported (ctx : TaskCtx)
    (task : TaskNode)
    (hbad : stmt_list_has_unsupported ctx.parallel_private task.body = true)
    (hranks : lhs_ranks_ok_list ctx task.body = true) :
    (∃ e, compute_clauses ctx ⟨task.body⟩ = Except.error e) ∧
    (∃ e, begin_string ctx task = Except.error e) ∧
    (∀ t2 s2, begin_string ctx task = Except.ok (t2, s2) → False) := by
  obtain ⟨body, cls⟩ := task
  simp only at hbad hranks ⊢
  have h1 : ∃ e, compute_clauses ctx ⟨body⟩ = Except.error e := by
    match body, hbad, hranks with
    | .nil, hbad, hranks => exact ⟨_, rfl⟩
    | .cons (PStmt.loop v a b c bd) .nil, hbad, hranks =>
        have hb : stmt_has_unsupported ctx.parallel_private
            (PStmt.loop v a b c bd) = true := by
          simpa [stmt_list_has_unsupported] using hbad
        have hr : lhs_ranks_ok ctx (PStmt.loop v a b c bd) = true := by
          simpa [lhs_ranks_ok_list] using hranks
        obtain ⟨e, he⟩ := evaluate_node_unsupported
          (PStmt.loop v a b c bd) ctx
          (stmtLoopVars (PStmt.loop v a b c bd)) [] initState hb hr
        exact ⟨e, by simp [compute_clauses, he]⟩
    | .cons (PStmt.assign lhs rhs) .nil, hbad, hranks => exact ⟨_, rfl⟩
    | .cons (PStmt.ifblock cond t e2) .nil, hbad, hranks => exact ⟨_, rfl⟩
    | .cons (PStmt.otherStmt tg) .nil, hbad, hranks => exact ⟨_, rfl⟩
    | .cons s (.cons s2 rest), hbad, hranks => exact ⟨_, rfl⟩
  obtain ⟨e, he⟩ := h1
  refine ⟨⟨e, he⟩, ⟨e, ?_⟩, ?_⟩
  · unfold begin_string
    rw [he]
  · intro t2 s2 hok
    unfold begin_string at hok
    rw [he] at hok
    exact Except.noConfusion hok

/-- The C7 witness region: inside the task loop, the assignment
`a(<Range>, j) = 1` writes a rank-2 array through a subscript of node
kind Range (neither Reference, Literal nor BinaryOperation). -/
def c7_example_body : PStmtList :=
  PStmtList.cons
    (PStmt.loop "j" (PExpr.lit 1) (PExpr.lit 10) (PExpr.lit 1)
      (PStmtList.cons
        (PStmt.assign
          (PExpr.arrayRef "a"
            [PExpr.rangeIx (PExpr.lit 0) (PExpr.lit 0), PExpr.ref "j"])
          (PExpr.lit 1))
        PStmtList.nil))
    PStmtList.nil

def c7_example_ctx : TaskCtx := ⟨["j"], [], [("a", 2)]⟩

/-- Witness for C7: on the concrete region above, clause computation
raises and `begin_string` cannot produce an updated node. -/
theorem compute_clauses_rejects_unsupported_witness :
    (∃ e, compute_clauses c7_example_ctx ⟨c7_example_body⟩ =
      Except.error e) ∧
    (∃ e, begin_string c7_example_ctx ⟨c7_example_body, initState⟩ =
      Except.error e) ∧
    (∀ t2 s2, begin_string c7_example_ctx ⟨c7_example_body, initState⟩ =
      Except.ok (t2, s2) → False) :=
  compute_clauses_rejects_unsupported c7_example_ctx
    ⟨c7_example_body, initState⟩ rfl rfl

end PsycloneSpec
